import Mathlib

/-!
Verification development for the Wisteria data-visualization library's axis
engine (`src/src/base/axis.cpp`).  The C++ code is shallowly embedded in Lean:

* C++ `double` values are modelled as exact rationals (`ℚ`);
* `wxCoord` (an integral pixel type) is modelled as `ℤ`, and the implicit
  C++ conversion from `double` to an integral type is modelled by `truncQ`
  (truncation toward zero);
* fallible operations (`Axis::GetPhysicalCoordinate`,
  `Axis::GetValueFromPhysicalCoordinate`), which in C++ return a `bool` plus
  an out-parameter, are modelled as `Option`-returning functions;
* the small helper functions from the library's utility headers
  (`safe_divide`, `safe_modulus`, `compare_doubles`) and the accessors of
  `axis.h` are not part of the provided sources; they are modelled from the
  specification where needed, each with a doc comment saying so.
-/

namespace Wisteria

/-- Truncation toward zero: the conversion a C++ `double` undergoes when it is
assigned to an integral type (`wxCoord`, `long`, `size_t`).  For nonnegative
arguments this is the floor, for negative arguments the ceiling. -/
def truncQ (x : ℚ) : ℤ := if 0 ≤ x then ⌊x⌋ else ⌈x⌉

/-- Modelled from the spec: `safe_divide` lives in the library's math utility
header, which is not among the provided sources.  Per §7 of the spec the
degenerate-divisor case "returns a neutral/zero result rather than dividing by
zero", so it is division that yields `0` for a zero divisor. -/
def safe_divide (a b : ℚ) : ℚ := if b = 0 then 0 else a / b

/-- Modelled from the spec: `safe_modulus` (math utility header, not among the
provided sources) is the `size_t` remainder, yielding `0` for a zero divisor
(§7: a neutral/zero result instead of a division by zero). -/
def safeModNat (a b : ℕ) : ℕ := if b = 0 then 0 else a % b

/-- Modelled from the spec: `compare_doubles` (math utility header, not among
the provided sources) is floating-point comparison of two `double`s; in the
exact rational embedding it is plain equality. -/
def compare_doubles (a b : ℚ) : Bool := a == b

/-- The C++ `static_cast<size_t>` of a nonnegative `double`: truncation toward
zero, then viewed as a natural number. -/
def truncToNat (x : ℚ) : ℕ := (truncQ x).toNat

namespace GraphItems

/-- One tick position of an axis (`AxisPoint` in `axis.h`): a data value, its
rendered text, a shown/hidden flag and the lazily resolved physical pixel
coordinate (a sentinel `-1` until `SetPoints` has run).  Ordering and equality
for lookups compare only `value` (spec §3). -/
structure AxisPoint where
  value : ℚ
  displayValue : String
  shown : Bool
  physicalCoordinate : ℚ := -1
deriving DecidableEq

/-- The orientation tag of an axis: one of the four sides of a plot. -/
inductive AxisType where
  | bottomXAxis | topXAxis | leftYAxis | rightYAxis
deriving DecidableEq

/-- `Axis::IsVertical()`: the left and right axes are vertical. -/
def AxisType.isVertical : AxisType → Bool
  | .leftYAxis => true
  | .rightYAxis => true
  | _ => false

/-- `Axis::IsHorizontal()`: the bottom and top axes are horizontal. -/
def AxisType.isHorizontal (t : AxisType) : Bool := !t.isVertical

/-- `AxisLabelOrientation`: whether labels run along the axis line or
perpendicular to it. -/
inductive AxisLabelOrientation where
  | parallel | perpendicular
deriving DecidableEq

/-- `AxisLabelDisplay`: which text an axis point shows. -/
inductive AxisLabelDisplay where
  | displayCustomLabelsOrValues
  | displayOnlyCustomLabels
  | displayCustomLabelsAndValues
  | noDisplay
deriving DecidableEq

/-- `AxisResetLevel`: the granularity argument of `Axis::Reset`. -/
inductive AxisResetLevel where
  | cosmeticSettings | brackets | titleHeaderFooter | rangeAndLabelValues | allSettings
deriving DecidableEq

/-- Modelled from the spec: `wxNumberFormatter::ToString` is part of the
external wxWidgets toolkit (an external collaborator per §6); the embedding
only needs it to produce some text for a value, so it renders the rational
directly.  No claim depends on the exact characters produced. -/
def formatNumber (x : ℚ) (_precision : ℕ) : String := toString x

/-- The state of one `Axis` (`axis.h` / `axis.cpp`), restricted to the fields
the verified operations read or write.  Field names follow the C++ members.
`m_scaledReserved` is the reversal flag (`IsReversed()`), `m_points1/2` are the
two physical endpoints (`m_points.first/.second`), and the cached
widest/tallest label measurements are modelled by their validity flags only
(the cleared cache is a `Label` with `Ok(false)`). -/
structure Axis where
  m_type : AxisType
  m_axisLabels : List AxisPoint
  m_customAxisLabels : List (ℚ × String)
  m_rangeStart : ℚ
  m_rangeEnd : ℚ
  m_scaledReserved : Bool
  m_startAtZero : Bool
  m_interval : ℚ
  m_tickMarkInterval : ℚ
  m_displayPrecision : ℕ
  m_displayInterval : ℕ
  m_labelSpacingPhysicalOffset : ℚ
  m_widestLabelOk : Bool
  m_tallestLabelOk : Bool
  m_stackLabelsToFit : Bool
  m_enableAutoStacking : Bool
  m_showOuterLabels : Bool
  m_labelOrientation : AxisLabelOrientation
  m_labelDisplay : AxisLabelDisplay
  m_points1 : ℤ × ℤ
  m_points2 : ℤ × ℤ
  m_scaling : ℚ

/-- Modelled from the spec: the in-class member initializers of `axis.h` are
not among the provided sources.  Per §3 a default-constructed axis starts with
a trivial unit range, no points, no custom labels, is not reversed, and a
horizontal (bottom) axis has auto-stacking enabled. -/
def defaultAxis : Axis where
  m_type := .bottomXAxis
  m_axisLabels := []
  m_customAxisLabels := []
  m_rangeStart := 0
  m_rangeEnd := 1
  m_scaledReserved := false
  m_startAtZero := false
  m_interval := 1
  m_tickMarkInterval := 1
  m_displayPrecision := 0
  m_displayInterval := 1
  m_labelSpacingPhysicalOffset := 0
  m_widestLabelOk := false
  m_tallestLabelOk := false
  m_stackLabelsToFit := false
  m_enableAutoStacking := true
  m_showOuterLabels := true
  m_labelOrientation := .parallel
  m_labelDisplay := .displayCustomLabelsOrValues
  m_points1 := (0, 0)
  m_points2 := (0, 0)
  m_scaling := 1

/-- The index computed by `std::lower_bound(GetAxisPoints().begin(),
GetAxisPoints().end(), value)` in `Axis::GetPhysicalCoordinate`
(axis.cpp:2924): the first position whose point is not `< value`, where
`AxisPoint`'s ordering against a `double` compares only `value` (spec §3);
`pts.length` plays the role of the `end()` iterator. -/
def lowerBoundIdx (pts : List AxisPoint) (v : ℚ) : ℕ :=
  pts.findIdx (fun p => decide (¬ p.value < v))

/-- The index computed by the reversed-axis linear search in
`Axis::GetPhysicalCoordinate` (axis.cpp:2913-2920): the first position with
`value >= pos->GetValue() || compare_doubles(value, pos->GetValue())`. -/
def reversedFindIdx (pts : List AxisPoint) (v : ℚ) : ℕ :=
  pts.findIdx (fun p => decide (p.value ≤ v) || compare_doubles v p.value)

/-- Translation of `Axis::GetPhysicalCoordinate` (axis.cpp:2905-2965).
Returns `none` where the C++ returns `false` (the out-parameter left at the
sentinel), and `some result` on success.  The interpolation branch follows the
C++ exactly: `coordinateDifference` is a `long` (truncation of a `double`
difference) and the final `result` is a `wxCoord` (truncation of the
interpolated `double`).  The C++ `else` branch for an invalid orientation is
unreachable with the four-valued orientation tag. -/
def Axis.GetPhysicalCoordinate (a : Axis) (value : ℚ) : Option ℤ :=
  if a.m_axisLabels.length = 0 then none
  else
    let i := if a.m_scaledReserved then reversedFindIdx a.m_axisLabels value
             else lowerBoundIdx a.m_axisLabels value
    if h : i < a.m_axisLabels.length then
      let p := a.m_axisLabels.get ⟨i, h⟩
      if p.value = value then some (truncQ p.physicalCoordinate)
      else if i = 0 then none
      else
        let prev := a.m_axisLabels.get ⟨i - 1, Nat.lt_of_le_of_lt (Nat.sub_le i 1) h⟩
        let lowerLineValue := prev.value
        let upperLineValue := p.value
        let percentage := safe_divide (value - lowerLineValue) (upperLineValue - lowerLineValue)
        if a.m_type.isHorizontal then
          let coordinateDifference : ℤ :=
            truncQ (p.physicalCoordinate - prev.physicalCoordinate)
          some (truncQ (prev.physicalCoordinate + (coordinateDifference : ℚ) * percentage))
        else
          let coordinateDifference : ℤ :=
            truncQ (prev.physicalCoordinate - p.physicalCoordinate)
          some (truncQ (prev.physicalCoordinate - (coordinateDifference : ℚ) * percentage))
    else none

/-- The index found by the linear walk in `Axis::GetValueFromPhysicalCoordinate`
(axis.cpp:2848-2864): the first point whose physical coordinate passes the
orientation-dependent test. -/
def valueSearchIdx (horizontal : Bool) (pts : List AxisPoint) (c : ℤ) : ℕ :=
  pts.findIdx (fun p =>
    if horizontal then decide ((c : ℚ) ≤ p.physicalCoordinate)
    else decide (p.physicalCoordinate ≤ (c : ℚ)))

/-- Translation of `Axis::GetValueFromPhysicalCoordinate` (axis.cpp:2841-2902).
The returned `value` is a `double`, so no truncation occurs on output. -/
def Axis.GetValueFromPhysicalCoordinate (a : Axis) (coordinate : ℤ) : Option ℚ :=
  if a.m_axisLabels.length = 0 then none
  else
    let i := valueSearchIdx a.m_type.isHorizontal a.m_axisLabels coordinate
    if h : i < a.m_axisLabels.length then
      let p := a.m_axisLabels.get ⟨i, h⟩
      if (coordinate : ℚ) = p.physicalCoordinate then some p.value
      else if i = 0 then none
      else
        let prev := a.m_axisLabels.get ⟨i - 1, Nat.lt_of_le_of_lt (Nat.sub_le i 1) h⟩
        let lowerLineValue := prev.physicalCoordinate
        let upperLineValue := p.physicalCoordinate
        let percentage := safe_divide ((coordinate : ℚ) - lowerLineValue)
                                      (upperLineValue - lowerLineValue)
        if a.m_type.isHorizontal then
          let coordinateDifference := p.value - prev.value
          some (prev.value + coordinateDifference * percentage)
        else
          let coordinateDifference := prev.value - p.value
          some (prev.value - coordinateDifference * percentage)
    else none

/-- Decrement of a C++ `size_t` counter (wraps at zero), used for
`--currentDisplayInterval` in the point-generation loops of `Axis::SetRange`. -/
def sizeTDec (n : ℕ) : ℕ := if n = 0 then 2 ^ 64 - 1 else n - 1

/-- The number of iterations of the point-generation loops in `Axis::SetRange`
(axis.cpp:2531 and 2554).  The forward loop runs `i` from `rangeStart` while
`i < rangeEnd + interval` in steps of `+interval`; the reversed loop runs `i`
from `rangeEnd` while `i > rangeStart - interval` in steps of `-interval`.
For a positive step both perform `⌈(rangeEnd + interval - rangeStart) /
interval⌉` iterations.  A nonpositive step can reach these loops only through
the equal-endpoint branch with a negative supplied interval, in which case the
loop guard fails at once (zero iterations); `SetRange_nonpos_interval_guard`
below checks that fact. -/
def walkCount (rangeStart rangeEnd interval : ℚ) : ℕ :=
  if 0 < interval then ⌈(rangeEnd + interval - rangeStart) / interval⌉₊ else 0

/-- One point-generation loop body of `Axis::SetRange` (axis.cpp:2531-2544 and
2554-2567), iterated `n` times: each step emits an `AxisPoint` at the running
value (formatted at the given precision, shown when the `size_t` countdown
`currentDisplayInterval` equals 1) and advances the running value by `step`. -/
def genPointsAux (step : ℚ) (precision displayInterval : ℕ) :
    ℕ → ℚ → ℕ → List AxisPoint
  | 0, _, _ => []
  | n + 1, v, cdi =>
      let display := cdi = 1
      let cdi' := if cdi = 1 then displayInterval else sizeTDec cdi
      ⟨v, formatNumber v precision, display, -1⟩ ::
        genPointsAux step precision displayInterval n (v + step) cdi'

/-- Translation of the five-parameter `Axis::SetRange` overload
(axis.cpp:2499-2571).  It clears the cached widest/tallest label measurements,
clamps the start when `IsStartingAtZero()`, rejects an inverted range as a
no-op, records precision/interval/display stride, expands an equal-endpoint
range symmetrically, repairs a nonsensical interval, regenerates the point
collection (reversed axes walk downward from the end) and stores the realized
range, whose stored end is the last generated point. -/
def Axis.SetRange (a : Axis) (rangeStart rangeEnd : ℚ) (precision : ℕ)
    (interval : ℚ) (displayInterval : ℕ) : Axis :=
  let a := { a with m_widestLabelOk := false, m_tallestLabelOk := false }
  let rangeStart := if a.m_startAtZero then min 0 rangeStart else rangeStart
  if rangeEnd < rangeStart then a
  else
    let a := { a with m_displayPrecision := precision, m_interval := interval,
                      m_tickMarkInterval := interval,
                      m_displayInterval := displayInterval }
    let interval := if rangeEnd = rangeStart ∧ interval = 0 then 1 else interval
    let rangeStart' := if rangeEnd = rangeStart then rangeStart - interval else rangeStart
    let rangeEnd' := if rangeEnd = rangeStart then rangeEnd + interval else rangeEnd
    let interval := if interval ≤ 0 then safe_divide (rangeEnd' - rangeStart') 2 else interval
    let n := walkCount rangeStart' rangeEnd' interval
    if a.m_scaledReserved then
      let pts := genPointsAux (-interval) precision displayInterval n rangeEnd' 1
      let lastValidPoint := match pts.getLast? with
        | some p => p.value
        | none => rangeEnd'
      { a with m_axisLabels := pts, m_rangeStart := rangeEnd', m_rangeEnd := lastValidPoint }
    else
      let pts := genPointsAux interval precision displayInterval n rangeStart' 1
      let lastValidPoint := match pts.getLast? with
        | some p => p.value
        | none => rangeStart'
      { a with m_axisLabels := pts, m_rangeStart := rangeStart', m_rangeEnd := lastValidPoint }

/-- The decade division factor picked at the top of the auto-interval
`Axis::SetRange` overload (axis.cpp:2448-2466): the largest power of ten
(capped at 10^8) strictly below the range size, and 1 for small ranges. -/
def rangeDivisionFactorOf (rangeSize : ℚ) : ℕ :=
  if 100000000 < rangeSize then 100000000
  else if 10000000 < rangeSize then 10000000
  else if 1000000 < rangeSize then 1000000
  else if 100000 < rangeSize then 100000
  else if 10000 < rangeSize then 10000
  else if 1000 < rangeSize then 1000
  else if 100 < rangeSize then 100
  else if 10 < rangeSize then 10
  else 1

/-- The "intelligent interval size" of the auto-interval `Axis::SetRange`
overload for a range size above 1 (axis.cpp:2476-2485): a rounded-up multiple
of `divisionFactor/10` for sizes of 100 or more, the fixed interval 5 for
sizes of 20 or more, and otherwise a tenth of the size rounded up to the next
integer.  `std::ceil` on a `double` is the rational ceiling; the inner
`safe_divide<size_t>` is natural-number division. -/
def autoIntervalSize (rangeSize : ℚ) : ℚ :=
  if 100 ≤ rangeSize then
    (⌈safe_divide rangeSize (rangeDivisionFactorOf rangeSize : ℚ)⌉ : ℚ) *
      ((rangeDivisionFactorOf rangeSize / 10 : ℕ) : ℚ)
  else if 20 ≤ rangeSize then 5
  else (⌈safe_divide rangeSize 10⌉ : ℚ)

/-- The range-size bump of the auto-interval `Axis::SetRange` overload
(axis.cpp:2487-2492): when the truncated size is not a multiple of the
truncated interval, grow the size to the next interval multiple.  The
`safe_modulus<size_t>` call truncates both `double` operands to `size_t`. -/
def autoAdjustedRangeSize (rangeSize : ℚ) : ℚ :=
  let m := safeModNat (truncToNat rangeSize) (truncToNat (autoIntervalSize rangeSize))
  if m ≠ 0 then (rangeSize - (m : ℚ)) + autoIntervalSize rangeSize else rangeSize

/-- Translation of the auto-interval `Axis::SetRange` overload
(axis.cpp:2438-2496): clamp the start when `IsStartingAtZero()`; a fractional
range (size at most 1) gets interval 0.2 and at least one digit of precision;
a larger range gets the decade-derived interval and its size bumped to the
next interval multiple; `includeExtraInterval` appends one more interval of
padding; the result is delegated to the five-parameter overload. -/
def Axis.SetRangeAuto (a : Axis) (rangeStart rangeEnd : ℚ) (precision : ℕ)
    (includeExtraInterval : Bool) : Axis :=
  let rangeStart := if a.m_startAtZero then min 0 rangeStart else rangeStart
  let rangeSize := rangeEnd - rangeStart
  if rangeSize ≤ 1 then
    a.SetRange rangeStart
      (rangeStart + (rangeSize + (if includeExtraInterval then 1 / 5 else 0)))
      (if precision = 0 then 1 else precision) (1 / 5) 1
  else
    a.SetRange rangeStart
      (rangeStart + (autoAdjustedRangeSize rangeSize +
        (if includeExtraInterval then autoIntervalSize rangeSize else 0)))
      precision (autoIntervalSize rangeSize) 1

/-- Translation of `Axis::ReverseScale` (axis.cpp:2821-2831): reverse the
point collection exactly when the requested direction differs from the current
flag, store the flag, and invalidate the cached widest/tallest labels. -/
def Axis.ReverseScale (a : Axis) (reverse : Bool) : Axis :=
  let pts :=
    if reverse ∧ ¬ a.m_scaledReserved then a.m_axisLabels.reverse
    else if ¬ reverse ∧ a.m_scaledReserved then a.m_axisLabels.reverse
    else a.m_axisLabels
  { a with m_axisLabels := pts, m_scaledReserved := reverse,
           m_widestLabelOk := false, m_tallestLabelOk := false }

/-- Translation of `Axis::Reset` (axis.cpp:48-106), restricted to the modelled
state.  Cosmetic, bracket and title/header/footer level effects touch only
unmodelled fields; the range-and-label level clears the point collection, the
custom-label map, the stored range, precision, intervals and the cached label
measurements; the all-settings level additionally resets stacking, reversal,
start-at-zero and label-display behavior. -/
def Axis.Reset (a : Axis) (level : AxisResetLevel) : Axis :=
  let a :=
    if level = .rangeAndLabelValues ∨ level = .allSettings then
      { a with m_axisLabels := [], m_customAxisLabels := [],
               m_labelSpacingPhysicalOffset := 0,
               m_rangeStart := 0, m_rangeEnd := 0,
               m_displayPrecision := 0, m_interval := 1,
               m_displayInterval := 1, m_tickMarkInterval := 1,
               m_widestLabelOk := false, m_tallestLabelOk := false }
    else a
  if level = .allSettings then
    { a with m_stackLabelsToFit := false,
             m_enableAutoStacking := a.m_type.isHorizontal,
             m_scaledReserved := false, m_startAtZero := false,
             m_labelDisplay := .displayCustomLabelsOrValues }
  else a

/-- Translation of `Axis::SetCustomLabel` (axis.cpp:2574-2586), restricted to
the modelled state: invalidate the cached label measurements and store the
label's text under the tick value (`m_customAxisLabels[tickValue] = theLabel`,
overwriting any previous entry; font/color/DPI stamping touches only
unmodelled cosmetic fields). -/
def Axis.SetCustomLabel (a : Axis) (tickValue : ℚ) (text : String) : Axis :=
  { a with m_widestLabelOk := false, m_tallestLabelOk := false,
           m_customAxisLabels :=
             (tickValue, text) :: a.m_customAxisLabels.filter (fun kv => kv.1 ≠ tickValue) }

/-- `Axis::GetCustomLabel` (axis.cpp:2589-2594): look the value up in the
custom-label map; `none` models the returned invalid label. -/
def Axis.GetCustomLabel (a : Axis) (value : ℚ) : Option String :=
  (a.m_customAxisLabels.find? (fun kv => kv.1 == value)).map (·.2)

/-- The per-index effect of `Axis::SetDisplayInterval` (axis.cpp:3022-3032)
when the interval is positive: after all labels are reset to hidden, index `i`
is shown exactly when the second loop visits it, i.e. when `i` is
`offset + k * interval` for some `k`.  (For `interval = 0` the second loop
never advances its index and does not terminate; see `displayLoopIndex`.) -/
def Axis.SetDisplayInterval (a : Axis) (interval : ℕ) (offset : ℕ) : Axis :=
  { a with m_displayInterval := interval,
           m_widestLabelOk := false, m_tallestLabelOk := false,
           m_axisLabels := a.m_axisLabels.mapIdx (fun i p =>
             { p with shown := offset ≤ i ∧ (i - offset) % interval = 0 ∧ 0 < interval }) }

/-- The loop index of the second loop of `Axis::SetDisplayInterval`
(axis.cpp:3029, `for (size_t i = 0+offset; i < m_axisLabels.size();
i += m_displayInterval)`) after `k` completed iterations. -/
def displayLoopIndex (interval offset k : ℕ) : ℕ := offset + k * interval

/-- Translation of `Axis::CalcLabelPositions` (axis.cpp:782-788): the uniform
physical spacing between adjacent axis points is the physical axis length over
`GetAxisPointsCount() - 1`;  `safe_divide` makes a single-point axis yield a
zero offset. -/
def Axis.CalcLabelPositions (a : Axis) : Axis :=
  if a.m_type.isVertical then
    { a with m_labelSpacingPhysicalOffset :=
        safe_divide ((a.m_points2.2 - a.m_points1.2).natAbs : ℚ)
                    ((a.m_axisLabels.length - 1 : ℕ) : ℚ) }
  else
    { a with m_labelSpacingPhysicalOffset :=
        safe_divide ((a.m_points2.1 - a.m_points1.1).natAbs : ℚ)
                    ((a.m_axisLabels.length - 1 : ℕ) : ℚ) }

/-- The indexed assignment loop shared by both branches of
`Axis::CalcTickMarkPositions` (`for (size_t i = 0; ...; ++i, ++pos)
pos->SetPhysicalCoordinate(f(i))`): each point at position `i` (counting from
the given start index) receives the physical coordinate `f i`. -/
def setPhysicalCoordinates (f : ℕ → ℚ) : ℕ → List AxisPoint → List AxisPoint
  | _, [] => []
  | i, p :: rest =>
      { p with physicalCoordinate := f i } :: setPhysicalCoordinates f (i + 1) rest

/-- Translation of the point-coordinate loop of `Axis::CalcTickMarkPositions`
(axis.cpp:728-735 and 756-760): a vertical axis resolves point `i` to
`topPoint.y + (bottomPoint.y - topPoint.y) - offset*i` (the bottom of the line,
walking upward), a horizontal axis to `leftPoint.x + offset*i`.  The tick-mark
collection the rest of that function rebuilds is not part of the modelled
state (no claim reads it). -/
def Axis.CalcTickMarkPositions (a : Axis) : Axis :=
  if a.m_type.isVertical then
    { a with m_axisLabels := setPhysicalCoordinates (fun i =>
        ((a.m_points1.2 : ℚ) + ((a.m_points2.2 : ℚ) - (a.m_points1.2 : ℚ))) -
          a.m_labelSpacingPhysicalOffset * i) 0 a.m_axisLabels }
  else
    { a with m_axisLabels := setPhysicalCoordinates (fun i =>
        (a.m_points1.1 : ℚ) + a.m_labelSpacingPhysicalOffset * i) 0 a.m_axisLabels }

/-- Translation of `Axis::SetPoints` (axis.cpp:3074-3109): normalize the two
endpoints (top/left first), then recompute the label spacing and the points'
physical coordinates.  The final `CalcBestScalingToFitLabels` call only
adjusts the label text scaling through the external text-measurement service
and touches no modelled field. -/
def Axis.SetPoints (a : Axis) (pt1 pt2 : ℤ × ℤ) : Axis :=
  let a :=
    if a.m_type.isVertical then
      if pt1.2 < pt2.2 then { a with m_points1 := pt1, m_points2 := pt2 }
      else { a with m_points1 := pt2, m_points2 := pt1 }
    else
      if pt1.1 < pt2.1 then { a with m_points1 := pt1, m_points2 := pt2 }
      else { a with m_points1 := pt2, m_points2 := pt1 }
  (a.CalcLabelPositions).CalcTickMarkPositions

/-- Translation of `Axis::IsPointDisplayingLabel` (axis.cpp:3035-3050). -/
def Axis.IsPointDisplayingLabel (a : Axis) (p : AxisPoint) : Bool :=
  if ¬ p.shown then false
  else if a.m_labelDisplay = .displayOnlyCustomLabels ∧ (a.GetCustomLabel p.value) = none then
    false
  else if (a.GetCustomLabel p.value) = none ∧ p.displayValue = "" then false
  else true

/-- Translation of `Axis::GetDisplayableValue` (axis.cpp:3053-3071), reduced
to the text of the returned label (the only part later computations read). -/
def Axis.GetDisplayableValue (a : Axis) (p : AxisPoint) : String :=
  if a.m_labelDisplay = .noDisplay then ""
  else
    let customLabel := a.GetCustomLabel p.value
    if a.m_labelDisplay = .displayCustomLabelsAndValues then
      customLabel.getD "" ++ "    " ++ p.displayValue
    else if a.m_labelDisplay = .displayOnlyCustomLabels ∨ (customLabel.getD "") ≠ "" then
      customLabel.getD ""
    else p.displayValue

/-- Translation of `Axis::ShouldLabelsBeStackedToFit` (axis.cpp:2173-2247).
The external device context only measures label text, so it is abstracted by
`measure`, mapping a label's text to its measured (width, height) — the size
of `Label::GetBoundingBox` for that text with the axis's font settings.
When auto-stacking is off the client's fixed choice is returned; otherwise the
per-label budget is the axis length over the displayed-label count (less one
when shown outer labels overhang), and stacking triggers when any displayed
label's extent (halved for the two outermost points when outer labels are
shown) reaches the budget. -/
def Axis.ShouldLabelsBeStackedToFit (measure : String → ℕ × ℕ) (a : Axis) : Bool :=
  if ¬ a.m_enableAutoStacking then a.m_stackLabelsToFit
  else
    let axisWidth : ℕ :=
      if a.m_type.isVertical then (a.m_points1.2 - a.m_points2.2).natAbs
      else (a.m_points2.1 - a.m_points1.1).natAbs
    let isMeasuringByHeight := a.m_labelOrientation = .perpendicular
    let displayedLabelsCount :=
      (a.m_axisLabels.filter (fun p => a.IsPointDisplayingLabel p)).length
    let outerPointCounts : Option AxisPoint → Bool := fun o =>
      (o.map (fun p => p.shown && decide ((a.GetDisplayableValue p).length ≠ 0))).getD false
    let displayedLabelsCount :=
      if 2 < displayedLabelsCount ∧ 2 < a.m_axisLabels.length ∧
         a.m_showOuterLabels = true ∧
         outerPointCounts a.m_axisLabels.head? = true ∧
         outerPointCounts a.m_axisLabels.getLast? = true
      then displayedLabelsCount - 1 else displayedLabelsCount
    let maxTextSize : ℤ :=
      truncQ (((axisWidth / displayedLabelsCount : ℕ) : ℚ) -
        (if isMeasuringByHeight then 2 * a.m_scaling else 0))
    if maxTextSize ≤ 0 then false
    else
      a.m_axisLabels.enum.any (fun ip =>
        a.IsPointDisplayingLabel ip.2 &&
          (let labelSize := measure (a.GetDisplayableValue ip.2)
           let axisTextWidth : ℕ :=
             if isMeasuringByHeight then labelSize.2 else labelSize.1
           let axisTextWidth :=
             if a.m_showOuterLabels = true ∧
                (ip.1 = 0 ∨ ip.1 = a.m_axisLabels.length - 1)
             then axisTextWidth / 2 else axisTextWidth
           decide (maxTextSize ≤ (axisTextWidth : ℤ))))

/-- The scale-lowering loop of `Axis::CalcBestScalingToFitLabels`
(axis.cpp:2140-2145 and 2154-2159): while the current scaling exceeds 1 and
the measured label (remeasured at each new scaling) does not fit, lower the
scaling by 0.1.  The external measurement is abstracted by `fits`, which says
whether the critical label fits the per-label budget at a given scaling. -/
def scalingSearch (fits : ℚ → Bool) (currentScaling : ℚ) : ℚ :=
  if h : 1 < currentScaling ∧ ¬ fits currentScaling then
    scalingSearch fits (currentScaling - 1 / 10)
  else currentScaling
termination_by ⌈10 * (currentScaling - 1)⌉₊
decreasing_by
  rcases h with ⟨h1, _⟩
  have hx : (0 : ℚ) < 10 * (currentScaling - 1) := by linarith
  have harg : 10 * (currentScaling - 1 / 10 - 1) = 10 * (currentScaling - 1) - 1 := by ring
  rw [harg]
  rcases le_or_lt (10 * (currentScaling - 1)) 1 with hle | _hgt
  · have h0 : ⌈10 * (currentScaling - 1) - 1⌉₊ = 0 := Nat.ceil_eq_zero.mpr (by linarith)
    rw [h0]
    exact Nat.ceil_pos.mpr hx
  · have hc : 0 < ⌈10 * (currentScaling - 1)⌉₊ := Nat.ceil_pos.mpr hx
    have hle2 : ⌈10 * (currentScaling - 1) - 1⌉₊ ≤ ⌈10 * (currentScaling - 1)⌉₊ - 1 := by
      rw [Nat.ceil_le]
      have hcast : ((⌈10 * (currentScaling - 1)⌉₊ - 1 : ℕ) : ℚ) =
          (⌈10 * (currentScaling - 1)⌉₊ : ℚ) - 1 := by
        push_cast [Nat.cast_sub hc]
        ring
      rw [hcast]
      have := Nat.le_ceil (10 * (currentScaling - 1))
      linarith
    omega

/-- The recommendation `Axis::CalcBestScalingToFitLabels` stores and returns
(axis.cpp:2168-2169): the search result clamped below by 1. -/
def calcBestScalingResult (fits : ℚ → Bool) (currentScaling : ℚ) : ℚ :=
  max 1 (scalingSearch fits currentScaling)

/-- The operations of the modelled mutator surface of `Axis`, used to state
reachability-style invariants. -/
inductive AxisOp where
  | opSetRange (rangeStart rangeEnd : ℚ) (precision : ℕ) (interval : ℚ) (displayInterval : ℕ)
  | opSetRangeAuto (rangeStart rangeEnd : ℚ) (precision : ℕ) (includeExtraInterval : Bool)
  | opReverseScale (reverse : Bool)
  | opReset (level : AxisResetLevel)
  | opSetCustomLabel (tickValue : ℚ) (text : String)
  | opSetDisplayInterval (interval offset : ℕ)
  | opSetPoints (pt1 pt2 : ℤ × ℤ)
deriving DecidableEq

/-- Interpretation of one modelled operation on an axis. -/
def applyOp (a : Axis) : AxisOp → Axis
  | .opSetRange s e p i d => a.SetRange s e p i d
  | .opSetRangeAuto s e p x => a.SetRangeAuto s e p x
  | .opReverseScale r => a.ReverseScale r
  | .opReset l => a.Reset l
  | .opSetCustomLabel v t => a.SetCustomLabel v t
  | .opSetDisplayInterval i o => a.SetDisplayInterval i o
  | .opSetPoints p1 p2 => a.SetPoints p1 p2

/-! Basic facts about truncation toward zero. -/

theorem truncQ_intCast (z : ℤ) : truncQ (z : ℚ) = z := by
  unfold truncQ
  split <;> simp

theorem truncQ_mono {x y : ℚ} (h : x ≤ y) : truncQ x ≤ truncQ y := by
  unfold truncQ
  split <;> split
  · exact Int.floor_le_floor h
  · next hx hy => exact absurd (le_trans hx h) hy
  · next hx hy =>
    calc ⌈x⌉ ≤ 0 := Int.ceil_le.mpr (by push_cast; linarith [not_le.mp hx])
    _ ≤ ⌊y⌋ := Int.le_floor.mpr (by push_cast; linarith)
  · exact Int.ceil_le_ceil h

theorem truncQ_nonneg {x : ℚ} (h : 0 ≤ x) : 0 ≤ truncQ x := by
  unfold truncQ
  rw [if_pos h]
  exact Int.le_floor.mpr (by push_cast; linarith)

theorem truncQ_cast_le {x : ℚ} (h : 0 ≤ x) : (truncQ x : ℚ) ≤ x := by
  unfold truncQ
  rw [if_pos h]
  exact Int.floor_le x

/-! Generic facts about `List.findIdx`, the combinator behind the embedded
`std::lower_bound` and the linear search loops. -/

theorem findIdx_eq_of_first {α : Type} (p : α → Bool) :
    ∀ (l : List α) (j : ℕ) (hj : j < l.length),
      (∀ k (hk : k < l.length), k < j → p (l.get ⟨k, hk⟩) = false) →
      p (l.get ⟨j, hj⟩) = true → l.findIdx p = j
  | [], j, hj, _, _ => absurd hj (by simp)
  | a :: l, 0, _, _, hself => by
      simp only [List.get_eq_getElem, List.getElem_cons_zero] at hself
      simp [List.findIdx_cons, hself]
  | a :: l, j + 1, hj, hbefore, hself => by
      have ha : p a = false := by
        have := hbefore 0 (by simp) (by omega)
        simpa using this
      rw [List.findIdx_cons]
      simp only [ha, cond_false]
      have ih : l.findIdx p = j := by
        apply findIdx_eq_of_first p l j (by simpa using hj)
        · intro k hk hkj
          have := hbefore (k + 1) (by simpa using hk) (by omega)
          simpa using this
        · simpa using hself
      omega

theorem findIdx_mono_pred {α : Type} {p q : α → Bool}
    (himp : ∀ x, p x = true → q x = true) :
    ∀ l : List α, l.findIdx q ≤ l.findIdx p
  | [] => le_refl _
  | a :: l => by
      rw [List.findIdx_cons, List.findIdx_cons]
      cases hpa : p a
      · cases hqa : q a
        · simp only [cond_false]
          have := findIdx_mono_pred himp l
          omega
        · simp
      · rw [himp a hpa]
        simp

/-! Shape lemmas for the two coordinate-mapping functions: the outcome is
`none` when the search reaches the end of the point collection, or stops at
the very first point without an exact hit. -/

theorem gpc_none_of_idx_eq_length (a : Axis) (v : ℚ)
    (h : (if a.m_scaledReserved then reversedFindIdx a.m_axisLabels v
          else lowerBoundIdx a.m_axisLabels v) = a.m_axisLabels.length) :
    a.GetPhysicalCoordinate v = none := by
  unfold Axis.GetPhysicalCoordinate
  split
  · rfl
  · rw [dif_neg]
    rw [h]
    exact lt_irrefl _

theorem gpc_none_of_idx_zero (a : Axis) (v : ℚ) (h0 : 0 < a.m_axisLabels.length)
    (h : (if a.m_scaledReserved then reversedFindIdx a.m_axisLabels v
          else lowerBoundIdx a.m_axisLabels v) = 0)
    (hne : (a.m_axisLabels.get ⟨0, h0⟩).value ≠ v) :
    a.GetPhysicalCoordinate v = none := by
  unfold Axis.GetPhysicalCoordinate
  rw [if_neg (by omega)]
  simp only [h]
  rw [dif_pos h0, if_neg hne]
  simp

theorem gvfpc_none_of_idx_eq_length (a : Axis) (c : ℤ)
    (h : valueSearchIdx a.m_type.isHorizontal a.m_axisLabels c = a.m_axisLabels.length) :
    a.GetValueFromPhysicalCoordinate c = none := by
  unfold Axis.GetValueFromPhysicalCoordinate
  split
  · rfl
  · rw [dif_neg]
    rw [h]
    exact lt_irrefl _

theorem gvfpc_none_of_idx_zero (a : Axis) (c : ℤ) (h0 : 0 < a.m_axisLabels.length)
    (h : valueSearchIdx a.m_type.isHorizontal a.m_axisLabels c = 0)
    (hne : (c : ℚ) ≠ (a.m_axisLabels.get ⟨0, h0⟩).physicalCoordinate) :
    a.GetValueFromPhysicalCoordinate c = none := by
  unfold Axis.GetValueFromPhysicalCoordinate
  rw [if_neg (by omega)]
  simp only [h]
  rw [dif_pos h0, if_neg hne]
  simp

/-- C3: for every axis and every value strictly outside the interval spanned
by its AxisPoints, `GetPhysicalCoordinate` fails by returning the not-found
result (`none`), and `GetValueFromPhysicalCoordinate` fails likewise for a
pixel strictly outside the physical span of the points; neither operation
returns success with an extrapolated coordinate or value. -/
theorem C3_out_of_range_mapping_fails (a : Axis) (v : ℚ) (c : ℤ)
    (hv : (∀ p ∈ a.m_axisLabels, v < p.value) ∨ (∀ p ∈ a.m_axisLabels, p.value < v))
    (hc : (∀ p ∈ a.m_axisLabels, (c : ℚ) < p.physicalCoordinate) ∨
          (∀ p ∈ a.m_axisLabels, p.physicalCoordinate < (c : ℚ))) :
    a.GetPhysicalCoordinate v = none ∧ a.GetValueFromPhysicalCoordinate c = none := by
  constructor
  · by_cases hnil : a.m_axisLabels = []
    · unfold Axis.GetPhysicalCoordinate
      rw [if_pos (by rw [hnil]; rfl)]
    · have h0 : 0 < a.m_axisLabels.length := List.length_pos.mpr hnil
      cases hrev : a.m_scaledReserved
      · rcases hv with hbelow | habove
        · apply gpc_none_of_idx_zero a v h0
          · rw [hrev, if_neg (by simp)]
            apply findIdx_eq_of_first _ _ 0 h0
            · intro k hk hk0
              exact absurd hk0 (Nat.not_lt_zero k)
            · have := hbelow _ (a.m_axisLabels.get_mem 0 h0)
              simp only [decide_eq_true_eq]
              exact not_lt.mpr (le_of_lt this)
          · exact ne_of_gt (hbelow _ (a.m_axisLabels.get_mem 0 h0))
        · apply gpc_none_of_idx_eq_length
          rw [hrev, if_neg (by simp)]
          apply List.findIdx_eq_length.mpr
          intro p hp
          simp only [decide_eq_false_iff_not, Decidable.not_not]
          exact habove p hp
      · rcases hv with hbelow | habove
        · apply gpc_none_of_idx_eq_length
          rw [hrev, if_pos rfl]
          apply List.findIdx_eq_length.mpr
          intro p hp
          have h1 : ¬ p.value ≤ v := not_le.mpr (hbelow p hp)
          have h2 : v ≠ p.value := ne_of_lt (hbelow p hp)
          simp [compare_doubles, h1, h2]
        · apply gpc_none_of_idx_zero a v h0
          · rw [hrev, if_pos rfl]
            apply findIdx_eq_of_first _ _ 0 h0
            · intro k hk hk0
              exact absurd hk0 (Nat.not_lt_zero k)
            · have := habove _ (a.m_axisLabels.get_mem 0 h0)
              simp only [List.get_eq_getElem] at this
              simp only [compare_doubles, Bool.or_eq_true, decide_eq_true_eq, beq_iff_eq]
              exact Or.inl (le_of_lt this)
          · exact ne_of_lt (habove _ (a.m_axisLabels.get_mem 0 h0))
  · by_cases hnil : a.m_axisLabels = []
    · unfold Axis.GetValueFromPhysicalCoordinate
      rw [if_pos (by rw [hnil]; rfl)]
    · have h0 : 0 < a.m_axisLabels.length := List.length_pos.mpr hnil
      cases hor : a.m_type.isHorizontal
      · rcases hc with hbelow | habove
        · apply gvfpc_none_of_idx_eq_length
          rw [hor]
          apply List.findIdx_eq_length.mpr
          intro p hp
          simp only [if_neg Bool.false_ne_true, decide_eq_false_iff_not, not_le]
          exact hbelow p hp
        · apply gvfpc_none_of_idx_zero a c h0
          · rw [hor]
            apply findIdx_eq_of_first _ _ 0 h0
            · intro k hk hk0
              exact absurd hk0 (Nat.not_lt_zero k)
            · have := habove _ (a.m_axisLabels.get_mem 0 h0)
              simp only [List.get_eq_getElem] at this
              simp
              linarith
          · exact ne_of_gt (habove _ (a.m_axisLabels.get_mem 0 h0))
      · rcases hc with hbelow | habove
        · apply gvfpc_none_of_idx_zero a c h0
          · rw [hor]
            apply findIdx_eq_of_first _ _ 0 h0
            · intro k hk hk0
              exact absurd hk0 (Nat.not_lt_zero k)
            · have := hbelow _ (a.m_axisLabels.get_mem 0 h0)
              simp only [List.get_eq_getElem] at this
              simp
              linarith
          · exact ne_of_lt (hbelow _ (a.m_axisLabels.get_mem 0 h0))
        · apply gvfpc_none_of_idx_eq_length
          rw [hor]
          apply List.findIdx_eq_length.mpr
          intro p hp
          have := habove p hp
          simp
          linarith

/-- A small concrete axis used by witnesses: a bottom (horizontal) axis with
two points at values 0 and 1 resolved to pixels 0 and 10. -/
def witnessAxisH : Axis :=
  { defaultAxis with
      m_axisLabels := [⟨0, "0", true, 0⟩, ⟨1, "1", true, 10⟩],
      m_rangeStart := 0, m_rangeEnd := 1 }

/-- Witness for C3: on a concrete two-point axis, the value 5 (above the
spanned interval) and the pixel 99 (right of the physical span) both fail. -/
theorem C3_witness :
    witnessAxisH.GetPhysicalCoordinate 5 = none ∧
    witnessAxisH.GetValueFromPhysicalCoordinate 99 = none := by
  apply C3_out_of_range_mapping_fails
  · right
    intro p hp
    simp only [witnessAxisH, defaultAxis, List.mem_cons, List.not_mem_nil, or_false] at hp
    rcases hp with h | h <;> (rw [h]; norm_num)
  · right
    intro p hp
    simp only [witnessAxisH, defaultAxis, List.mem_cons, List.not_mem_nil, or_false] at hp
    rcases hp with h | h <;> (rw [h]; norm_num)

/-- A concrete axis that is already reversed: its two points are stored in
descending value order and the reversal flag is set, as after a prior
`ReverseScale(true)` plus `SetRange`. -/
def witnessAxisReversed : Axis :=
  { defaultAxis with
      m_scaledReserved := true,
      m_axisLabels := [⟨1, "1", true, 0⟩, ⟨0, "0", true, 10⟩],
      m_rangeStart := 1, m_rangeEnd := 0 }

/-- Counterexample to C9 as stated: on an axis that is already reversed,
`ReverseScale(true)` followed by `ReverseScale(false)` does not restore the
original state — the first call is a no-op on the point order, the second
reverses the points and clears the flag, so the reversed flag (and the point
order) differ from the original. -/
theorem C9_counterexample :
    ¬ (((witnessAxisReversed.ReverseScale true).ReverseScale false).m_axisLabels =
         witnessAxisReversed.m_axisLabels ∧
       ((witnessAxisReversed.ReverseScale true).ReverseScale false).m_scaledReserved =
         witnessAxisReversed.m_scaledReserved) := by
  intro h
  have hflag := h.2
  simp [Axis.ReverseScale, witnessAxisReversed] at hflag

/-- C9 (amended): for every axis that is not currently reversed,
`ReverseScale(true)` followed immediately by `ReverseScale(false)` restores
the AxisPoint collection to its original order and the reversed flag to its
original value, so `GetPhysicalCoordinate` yields the same results as before
either call.  (For an axis that is already reversed the pair of calls instead
un-reverses it; see the counterexample.) -/
theorem C9_reversal_symmetry (a : Axis) (hrev : a.m_scaledReserved = false) :
    ((a.ReverseScale true).ReverseScale false).m_axisLabels = a.m_axisLabels ∧
    ((a.ReverseScale true).ReverseScale false).m_scaledReserved = a.m_scaledReserved ∧
    ∀ v, ((a.ReverseScale true).ReverseScale false).GetPhysicalCoordinate v =
           a.GetPhysicalCoordinate v := by
  have hax : (a.ReverseScale true).ReverseScale false =
      { a with m_widestLabelOk := false, m_tallestLabelOk := false } := by
    simp [Axis.ReverseScale, hrev]
  rw [hax]
  exact ⟨rfl, rfl, fun v => rfl⟩

/-- Witness for C9's amended theorem at a concrete non-reversed axis. -/
theorem C9_witness :
    ((witnessAxisH.ReverseScale true).ReverseScale false).m_axisLabels =
      witnessAxisH.m_axisLabels ∧
    ((witnessAxisH.ReverseScale true).ReverseScale false).m_scaledReserved =
      witnessAxisH.m_scaledReserved ∧
    ((witnessAxisH.ReverseScale true).ReverseScale false).GetPhysicalCoordinate 1 =
      witnessAxisH.GetPhysicalCoordinate 1 := by
  have h := C9_reversal_symmetry witnessAxisH rfl
  exact ⟨h.1, h.2.1, h.2.2 1⟩

/-! Facts about the point-generation loop of `SetRange`. -/

theorem genPointsAux_length (step : ℚ) (p dI : ℕ) :
    ∀ (n : ℕ) (v : ℚ) (c : ℕ), (genPointsAux step p dI n v c).length = n
  | 0, _, _ => rfl
  | n + 1, v, c => by
      rw [genPointsAux]
      simpa using genPointsAux_length step p dI n (v + step) _

theorem getLast?_cons_of_ne_nil {α : Type} (a : α) {l : List α} (h : l ≠ []) :
    (a :: l).getLast? = l.getLast? := by
  cases l with
  | nil => exact absurd rfl h
  | cons b m => rw [List.getLast?_cons_cons]

theorem genPointsAux_getLast_value (step : ℚ) (p dI : ℕ) :
    ∀ (n : ℕ) (v : ℚ) (c : ℕ), n ≠ 0 →
      ∃ q : AxisPoint, (genPointsAux step p dI n v c).getLast? = some q ∧
        q.value = v + ((n - 1 : ℕ) : ℚ) * step
  | 0, _, _, h => absurd rfl h
  | 1, v, c, _ => by
      rw [genPointsAux, genPointsAux]
      exact ⟨_, List.getLast?_singleton _, by simp⟩
  | n + 2, v, c, _ => by
      rcases genPointsAux_getLast_value step p dI (n + 1) (v + step)
          (if c = 1 then dI else sizeTDec c) (by omega) with ⟨q, hq, hqv⟩
      refine ⟨q, ?_, ?_⟩
      · rw [genPointsAux]
        rw [getLast?_cons_of_ne_nil]
        · exact hq
        · intro hnil
          have := genPointsAux_length step p dI (n + 1) (v + step)
            (if c = 1 then dI else sizeTDec c)
          rw [hnil] at this
          simp at this
      · rw [hqv]
        push_cast
        ring

theorem walkCount_pos_formula (s e I : ℚ) (hI : 0 < I) (hse : s ≤ e) :
    walkCount s e I = ⌈(e + I - s) / I⌉₊ ∧ 0 < walkCount s e I := by
  unfold walkCount
  rw [if_pos hI]
  refine ⟨rfl, Nat.ceil_pos.mpr ?_⟩
  apply div_pos _ hI
  linarith

/-- C10 (implicit claim): the numeric `SetRange` with equal endpoints is not
rejected; with the start unaffected by the start-at-zero clamp and a
nonnegative supplied interval, the axis expands the request symmetrically to
`[start - interval, start + interval]` (substituting an interval of 1 when the
supplied interval is 0), producing exactly three points centered on the
requested value (in descending order for a reversed axis) and storing the
expanded range. -/
theorem C10_equal_endpoint_expansion (a : Axis) (s I : ℚ) (precision dI : ℕ)
    (hsz : (if a.m_startAtZero then min 0 s else s) = s) (hI : 0 ≤ I) :
    ((a.SetRange s s precision I dI).m_axisLabels.map (fun q => q.value) =
       (if a.m_scaledReserved then
          [s + (if I = 0 then 1 else I), s, s - (if I = 0 then 1 else I)]
        else
          [s - (if I = 0 then 1 else I), s, s + (if I = 0 then 1 else I)])) ∧
    (a.SetRange s s precision I dI).m_rangeStart =
      (if a.m_scaledReserved then s + (if I = 0 then 1 else I)
       else s - (if I = 0 then 1 else I)) ∧
    (a.SetRange s s precision I dI).m_rangeEnd =
      (if a.m_scaledReserved then s - (if I = 0 then 1 else I)
       else s + (if I = 0 then 1 else I)) := by
  have hI'pos : 0 < (if I = 0 then 1 else I) := by
    split
    · norm_num
    · next h => exact lt_of_le_of_ne hI (Ne.symm h)
  have hcount : ∀ T : ℚ, 0 < T → walkCount (s - T) (s + T) T = 3 := by
    intro T hT
    unfold walkCount
    rw [if_pos hT]
    have harg : (s + T + T - (s - T)) / T = 3 := by
      field_simp
      ring
    rw [harg]
    norm_num
  unfold Axis.SetRange
  simp only [hsz, lt_self_iff_false, if_false, eq_self_iff_true, true_and, if_true]
  rw [if_neg (not_le.mpr hI'pos), hcount _ hI'pos]
  cases hrev : a.m_scaledReserved with
  | true =>
      simp only [ite_true]
      rw [show (3 : ℕ) = 2 + 1 from rfl, genPointsAux,
          show (2 : ℕ) = 1 + 1 from rfl, genPointsAux,
          show (1 : ℕ) = 0 + 1 from rfl, genPointsAux, genPointsAux]
      simp only [ite_true, List.map_cons, List.map_nil, List.getLast?_cons_cons,
        List.getLast?_singleton, List.cons.injEq, and_true]
      refine ⟨?_, ?_, ?_⟩
      · refine ⟨by ring, by ring, by ring⟩
      · ring
      · ring
  | false =>
      simp only [Bool.false_eq_true, ite_false]
      rw [show (3 : ℕ) = 2 + 1 from rfl, genPointsAux,
          show (2 : ℕ) = 1 + 1 from rfl, genPointsAux,
          show (1 : ℕ) = 0 + 1 from rfl, genPointsAux, genPointsAux]
      simp only [ite_true, List.map_cons, List.map_nil, List.getLast?_cons_cons,
        List.getLast?_singleton, List.cons.injEq, and_true]
      refine ⟨?_, ?_, ?_⟩
      · refine ⟨by ring, by ring, by ring⟩
      · ring
      · ring

/-- Witness for C10: a plain axis asked for the degenerate range `[7, 7]` with
interval 0 ends up with the three points 6, 7, 8 and the range `[6, 8]`. -/
theorem C10_witness :
    (defaultAxis.SetRange 7 7 0 0 1).m_axisLabels.map (fun q => q.value) = [6, 7, 8] ∧
    (defaultAxis.SetRange 7 7 0 0 1).m_rangeStart = 6 ∧
    (defaultAxis.SetRange 7 7 0 0 1).m_rangeEnd = 8 := by
  have h := C10_equal_endpoint_expansion defaultAxis 7 0 0 1 (by simp [defaultAxis]) le_rfl
  refine ⟨?_, ?_, ?_⟩
  · have h1 := h.1
    simp only [defaultAxis, if_pos rfl] at h1 ⊢
    rw [h1]
    norm_num
  · have h2 := h.2.1
    simp only [defaultAxis, if_pos rfl] at h2 ⊢
    rw [h2]
    norm_num
  · have h3 := h.2.2
    simp only [defaultAxis, if_pos rfl] at h3 ⊢
    rw [h3]
    norm_num

set_option maxHeartbeats 1600000 in
theorem SetRange_customLabels_caches (a : Axis) (s e : ℚ) (p : ℕ) (I : ℚ) (dI : ℕ) :
    (a.SetRange s e p I dI).m_customAxisLabels = a.m_customAxisLabels ∧
    (a.SetRange s e p I dI).m_widestLabelOk = false ∧
    (a.SetRange s e p I dI).m_tallestLabelOk = false := by
  simp only [Axis.SetRange]
  split_ifs <;> exact ⟨rfl, rfl, rfl⟩

set_option maxHeartbeats 1600000 in
/-- C6: a plain numeric `SetRange` (and the auto-interval overload, and the
other modelled mutators: `ReverseScale`, `SetDisplayInterval`, `SetPoints`)
leaves the custom-label map exactly unchanged, while `SetRange` clears the
cached widest/tallest label measurements; the map is cleared only by an
explicit `Reset` at the `RangeAndLabelValues` or `AllSettings` level — the
other reset levels preserve it as well. -/
theorem C6_custom_labels_survive_range_reset (a : Axis) (s e : ℚ) (p : ℕ) (I : ℚ)
    (dI : ℕ) (x reverse : Bool) (i o : ℕ) (q1 q2 : ℤ × ℤ) :
    (a.SetRange s e p I dI).m_customAxisLabels = a.m_customAxisLabels ∧
    (a.SetRange s e p I dI).m_widestLabelOk = false ∧
    (a.SetRange s e p I dI).m_tallestLabelOk = false ∧
    (a.SetRangeAuto s e p x).m_customAxisLabels = a.m_customAxisLabels ∧
    (a.ReverseScale reverse).m_customAxisLabels = a.m_customAxisLabels ∧
    (a.SetDisplayInterval i o).m_customAxisLabels = a.m_customAxisLabels ∧
    (a.SetPoints q1 q2).m_customAxisLabels = a.m_customAxisLabels ∧
    (a.Reset .rangeAndLabelValues).m_customAxisLabels = [] ∧
    (a.Reset .allSettings).m_customAxisLabels = [] ∧
    (a.Reset .cosmeticSettings).m_customAxisLabels = a.m_customAxisLabels ∧
    (a.Reset .brackets).m_customAxisLabels = a.m_customAxisLabels ∧
    (a.Reset .titleHeaderFooter).m_customAxisLabels = a.m_customAxisLabels := by
  obtain ⟨h1, h2, h3⟩ := SetRange_customLabels_caches a s e p I dI
  refine ⟨h1, h2, h3, ?_, rfl, rfl, ?_, rfl, rfl, rfl, rfl, rfl⟩
  · simp only [Axis.SetRangeAuto]
    split_ifs <;> exact (SetRange_customLabels_caches _ _ _ _ _ _).1
  · simp only [Axis.SetPoints, Axis.CalcLabelPositions, Axis.CalcTickMarkPositions]
    split_ifs <;> rfl

/-- C8 (the failing part evaluated, plus the sound part): with a display
interval of 0 and offset 0 on an axis whose point collection is non-empty
(here: a three-point axis from `SetRange(0, 2, interval 1)`), the loop index
of `SetDisplayInterval`'s second loop never advances and the loop guard
`i < m_axisLabels.size()` holds after every number of completed iterations,
so the loop never exits.  By contrast the scale-lowering search of
`CalcBestScalingToFitLabels` is total (it compiles as a terminating function)
and its recommendation is always at least the floor scaling of 1. -/
theorem C8_display_interval_zero_never_exits :
    (∀ k : ℕ, displayLoopIndex 0 0 k = 0 ∧
       displayLoopIndex 0 0 k < (defaultAxis.SetRange 0 2 0 1 1).m_axisLabels.length) ∧
    (∀ (fits : ℚ → Bool) (sc : ℚ), 1 ≤ calcBestScalingResult fits sc) := by
  have hlen : (defaultAxis.SetRange 0 2 0 1 1).m_axisLabels.length = 3 := by
    unfold Axis.SetRange
    norm_num [defaultAxis, walkCount, genPointsAux_length]
  constructor
  · intro k
    constructor
    · simp [displayLoopIndex]
    · rw [hlen]
      simp [displayLoopIndex]
  · intro fits sc
    exact le_max_left 1 _

/-- A concrete axis for the stacking scenario of C7: a horizontal bottom axis
whose physical endpoints span 200 pixels, carrying ten displayed labels. -/
def stackingAxis : Axis :=
  { defaultAxis with
      m_axisLabels :=
        [⟨0, "label", true, -1⟩, ⟨1, "label", true, -1⟩, ⟨2, "label", true, -1⟩,
         ⟨3, "label", true, -1⟩, ⟨4, "label", true, -1⟩, ⟨5, "label", true, -1⟩,
         ⟨6, "label", true, -1⟩, ⟨7, "label", true, -1⟩, ⟨8, "label", true, -1⟩,
         ⟨9, "label", true, -1⟩],
      m_points1 := (0, 0), m_points2 := (200, 0) }

/-- C7: on an auto-stacking axis of physical length 200 pixels with 10
displayed labels, each measuring 30 pixels of parallel extent, the per-label
budget (200 over the effective count of 9, outer labels overhanging) is met
by the inner labels' 30-pixel extent, so `ShouldLabelsBeStackedToFit` returns
true; and whenever auto-stacking is disabled, the function returns the
client's fixed stacking setting unconditionally. -/
theorem C7_stacking_trigger :
    Axis.ShouldLabelsBeStackedToFit (fun _ => (30, 10)) stackingAxis = true ∧
    (∀ (a : Axis) (measure : String → ℕ × ℕ),
      Axis.ShouldLabelsBeStackedToFit measure { a with m_enableAutoStacking := false } =
        a.m_stackLabelsToFit) := by
  constructor
  · norm_num [Axis.ShouldLabelsBeStackedToFit, stackingAxis, defaultAxis,
      Axis.IsPointDisplayingLabel, Axis.GetCustomLabel, Axis.GetDisplayableValue,
      truncQ, List.filter_cons, List.enum, List.enumFrom, List.any_cons,
      AxisType.isVertical, AxisType.isHorizontal, List.find?_nil,
      show ¬ (AxisLabelDisplay.displayCustomLabelsOrValues =
        AxisLabelDisplay.displayOnlyCustomLabels) from by decide,
      show ¬ (AxisLabelOrientation.parallel = AxisLabelOrientation.perpendicular)
        from by decide,
      show ¬ ("label" = "") from by decide,
      show ¬ (AxisLabelDisplay.displayCustomLabelsOrValues =
        AxisLabelDisplay.noDisplay) from by decide,
      show ¬ (AxisLabelDisplay.displayCustomLabelsOrValues =
        AxisLabelDisplay.displayCustomLabelsAndValues) from by decide,
      show ("label".length = 5) from rfl]
  · intro a measure
    simp [Axis.ShouldLabelsBeStackedToFit]

/-! Range invariant machinery for C4. -/

theorem walkCount_zero_of_nonpos {s e I : ℚ} (h : ¬ 0 < I) : walkCount s e I = 0 := by
  unfold walkCount
  rw [if_neg h]

theorem walk_inv (start e I : ℚ) (p dI : ℕ) :
    start ≤ match (genPointsAux I p dI (walkCount start e I) start 1).getLast? with
            | some q => q.value
            | none => start := by
  rcases Nat.eq_zero_or_pos (walkCount start e I) with hn | hn
  · rw [hn, genPointsAux]
    simp
  · have hpos : 0 < I := by
      by_contra hcon
      rw [walkCount_zero_of_nonpos hcon] at hn
      omega
    rcases genPointsAux_getLast_value I p dI (walkCount start e I) start 1
      (by omega) with ⟨q, hq, hqv⟩
    rw [hq]
    show start ≤ q.value
    rw [hqv]
    have : (0 : ℚ) ≤ ((walkCount start e I - 1 : ℕ) : ℚ) * I := by positivity
    linarith

theorem SetRange_inv (a : Axis) (hrev : a.m_scaledReserved = false)
    (hse : a.m_rangeStart ≤ a.m_rangeEnd) (s e : ℚ) (p : ℕ) (I : ℚ) (dI : ℕ) :
    (a.SetRange s e p I dI).m_scaledReserved = false ∧
    (a.SetRange s e p I dI).m_rangeStart ≤ (a.SetRange s e p I dI).m_rangeEnd := by
  simp only [Axis.SetRange]
  by_cases h1 : e < (if a.m_startAtZero = true then 0 ⊓ s else s)
  · rw [if_pos h1]
    exact ⟨hrev, hse⟩
  · rw [if_neg h1, hrev]
    simp only [Bool.false_eq_true, if_false]
    exact ⟨trivial, walk_inv _ _ _ _ _⟩

theorem applyOp_inv (a : Axis) (op : AxisOp) (hop : op ≠ AxisOp.opReverseScale true)
    (h1 : a.m_scaledReserved = false) (h2 : a.m_rangeStart ≤ a.m_rangeEnd) :
    (applyOp a op).m_scaledReserved = false ∧
    (applyOp a op).m_rangeStart ≤ (applyOp a op).m_rangeEnd := by
  cases op with
  | opSetRange s e p I dI => exact SetRange_inv a h1 h2 s e p I dI
  | opSetRangeAuto s e p x =>
      simp only [applyOp, Axis.SetRangeAuto]
      split_ifs <;> exact SetRange_inv a h1 h2 _ _ _ _ _
  | opReverseScale b =>
      cases b with
      | true => exact absurd rfl hop
      | false => exact ⟨rfl, h2⟩
  | opReset level =>
      cases level <;>
        first
        | exact ⟨h1, h2⟩
        | exact ⟨h1, le_refl 0⟩
        | exact ⟨rfl, le_refl 0⟩
  | opSetCustomLabel v t => exact ⟨h1, h2⟩
  | opSetDisplayInterval i o => exact ⟨h1, h2⟩
  | opSetPoints p1 p2 =>
      simp only [applyOp, Axis.SetPoints, Axis.CalcLabelPositions, Axis.CalcTickMarkPositions]
      split_ifs <;> exact ⟨h1, h2⟩

theorem foldl_applyOp_inv :
    ∀ (ops : List AxisOp) (a : Axis),
      (∀ op ∈ ops, op ≠ AxisOp.opReverseScale true) →
      a.m_scaledReserved = false → a.m_rangeStart ≤ a.m_rangeEnd →
      (ops.foldl applyOp a).m_scaledReserved = false ∧
      (ops.foldl applyOp a).m_rangeStart ≤ (ops.foldl applyOp a).m_rangeEnd
  | [], _, _, h1, h2 => ⟨h1, h2⟩
  | op :: ops, a, hops, h1, h2 => by
      rw [List.foldl_cons]
      have hstep := applyOp_inv a op (hops op (by simp)) h1 h2
      exact foldl_applyOp_inv ops _ (fun o ho => hops o (by simp [ho])) hstep.1 hstep.2

/-- Counterexample to C4 as stated: `SetRange(0, 10, interval 1)` on a
reversed axis stores the range inverted — the stored `m_rangeStart` is 10 and
the stored `m_rangeEnd` is 0 (the last point of the downward walk), so
`rangeEnd >= rangeStart` fails on a state reachable by
`ReverseScale(true); SetRange(0, 10)`. -/
theorem C4_counterexample :
    ((defaultAxis.ReverseScale true).SetRange 0 10 0 1 1).m_rangeEnd <
      ((defaultAxis.ReverseScale true).SetRange 0 10 0 1 1).m_rangeStart := by
  have h11 : walkCount (0 : ℚ) 10 1 = 11 := by
    unfold walkCount
    norm_num
  simp only [Axis.ReverseScale, Axis.SetRange, defaultAxis]
  norm_num [h11]
  rcases genPointsAux_getLast_value (-1) 0 1 11 10 1 (by omega) with ⟨q, hq, hqv⟩
  rw [hq]
  simp only
  rw [hqv]
  norm_num

/-- C4 (amended): along every operation sequence that never requests reversal,
the stored range keeps `rangeStart <= rangeEnd` (on a reversed axis `SetRange`
instead stores the range inverted — see the counterexample); and a numeric
`SetRange` whose requested end is below the (start-at-zero clamped) start is
rejected as a no-op that leaves the stored range, the AxisPoint collection and
the custom-label map unchanged. -/
theorem C4_range_invariant (ops : List AxisOp)
    (hops : ∀ op ∈ ops, op ≠ AxisOp.opReverseScale true) (a : Axis) (s e : ℚ)
    (p : ℕ) (I : ℚ) (dI : ℕ)
    (hlt : e < (if a.m_startAtZero then min 0 s else s)) :
    (ops.foldl applyOp defaultAxis).m_rangeStart ≤
      (ops.foldl applyOp defaultAxis).m_rangeEnd ∧
    (a.SetRange s e p I dI).m_rangeStart = a.m_rangeStart ∧
    (a.SetRange s e p I dI).m_rangeEnd = a.m_rangeEnd ∧
    (a.SetRange s e p I dI).m_axisLabels = a.m_axisLabels ∧
    (a.SetRange s e p I dI).m_customAxisLabels = a.m_customAxisLabels := by
  have hreject : a.SetRange s e p I dI =
      { a with m_widestLabelOk := false, m_tallestLabelOk := false } := by
    simp only [Axis.SetRange]
    rw [if_pos hlt]
  refine ⟨?_, ?_, ?_, ?_, ?_⟩
  · exact (foldl_applyOp_inv ops defaultAxis hops rfl (by norm_num [defaultAxis])).2
  all_goals rw [hreject]

/-- Witness for C4's amended theorem: a concrete non-reversing operation
sequence keeps the invariant, and a concrete inverted request `SetRange(5, 3)`
is a no-op on the default axis's range, points and custom labels. -/
theorem C4_witness :
    (([AxisOp.opSetRange 0 10 0 1 1, AxisOp.opReverseScale false].foldl applyOp
        defaultAxis).m_rangeStart ≤
      ([AxisOp.opSetRange 0 10 0 1 1, AxisOp.opReverseScale false].foldl applyOp
        defaultAxis).m_rangeEnd) ∧
    (defaultAxis.SetRange 5 3 0 1 1).m_rangeStart = defaultAxis.m_rangeStart ∧
    (defaultAxis.SetRange 5 3 0 1 1).m_rangeEnd = defaultAxis.m_rangeEnd ∧
    (defaultAxis.SetRange 5 3 0 1 1).m_axisLabels = defaultAxis.m_axisLabels ∧
    (defaultAxis.SetRange 5 3 0 1 1).m_customAxisLabels =
      defaultAxis.m_customAxisLabels := by
  have h := C4_range_invariant
    [AxisOp.opSetRange 0 10 0 1 1, AxisOp.opReverseScale false]
    (by
      intro op hop
      simp only [List.mem_cons, List.not_mem_nil, or_false] at hop
      rcases hop with h | h <;> (rw [h]; simp))
    defaultAxis 5 3 0 1 1
    (by norm_num [defaultAxis])
  exact h

/-! Machinery for C5: the walk meets or overshoots the requested end. -/

theorem walk_last_ge_end (start e I : ℚ) (p dI : ℕ) (hI : 0 < I) (hse : start ≤ e) :
    e ≤ match (genPointsAux I p dI (walkCount start e I) start 1).getLast? with
        | some q => q.value
        | none => start := by
  have hx : (0 : ℚ) ≤ (e - start) / I := div_nonneg (by linarith) hI.le
  have hn : walkCount start e I = ⌈(e - start) / I⌉₊ + 1 := by
    unfold walkCount
    rw [if_pos hI]
    have harg : (e + I - start) / I = (e - start) / I + 1 := by
      field_simp
      ring
    rw [harg, Nat.ceil_add_one hx]
  rcases genPointsAux_getLast_value I p dI (walkCount start e I) start 1
    (by rw [hn]; omega) with ⟨q, hq, hqv⟩
  rw [hq]
  show e ≤ q.value
  rw [hqv, hn]
  have h1 : ((⌈(e - start) / I⌉₊ + 1 - 1 : ℕ) : ℚ) = (⌈(e - start) / I⌉₊ : ℚ) := by
    norm_num
  rw [h1]
  have h2 : (e - start) / I ≤ (⌈(e - start) / I⌉₊ : ℚ) := Nat.le_ceil _
  have h3 : (e - start) / I * I ≤ (⌈(e - start) / I⌉₊ : ℚ) * I :=
    mul_le_mul_of_nonneg_right h2 hI.le
  rw [div_mul_cancel₀ _ (ne_of_gt hI)] at h3
  linarith

theorem SetRange_realized_end (a : Axis) (s e : ℚ) (p : ℕ) (I : ℚ) (dI : ℕ)
    (hI : 0 < I) (hse : (if a.m_startAtZero then min 0 s else s) ≤ e) :
    e ≤ max ((a.SetRange s e p I dI).m_rangeStart) ((a.SetRange s e p I dI).m_rangeEnd) := by
  have hI0 : ¬ I = 0 := ne_of_gt hI
  simp only [Axis.SetRange]
  rw [if_neg (not_lt.mpr hse)]
  by_cases heq : e = (if a.m_startAtZero = true then min 0 s else s)
  · have hc1 : ¬ (e = (if a.m_startAtZero = true then min 0 s else s) ∧ I = 0) :=
      fun hc => hI0 hc.2
    simp only [if_pos heq, if_neg hc1]
    rw [if_neg (not_le.mpr hI)]
    by_cases hrev : a.m_scaledReserved = true
    · rw [if_pos hrev]
      apply le_max_of_le_left
      show e ≤ e + I
      linarith
    · rw [if_neg hrev]
      apply le_max_of_le_right
      have hlast := walk_last_ge_end ((if a.m_startAtZero = true then min 0 s else s) - I)
        (e + I) I p dI hI (by rw [← heq]; linarith)
      show e ≤ _
      refine le_trans (by linarith : e ≤ e + I) ?_
      exact hlast
  · have hc1 : ¬ (e = (if a.m_startAtZero = true then min 0 s else s) ∧ I = 0) :=
      fun hc => heq hc.1
    simp only [if_neg heq, if_neg hc1]
    rw [if_neg (not_le.mpr hI)]
    by_cases hrev : a.m_scaledReserved = true
    · rw [if_pos hrev]
      exact le_max_of_le_left (le_refl e)
    · rw [if_neg hrev]
      exact le_max_of_le_right
        (walk_last_ge_end (if a.m_startAtZero = true then min 0 s else s) e I p dI hI hse)

theorem rangeDivisionFactorOf_pos (rs : ℚ) : 0 < rangeDivisionFactorOf rs := by
  unfold rangeDivisionFactorOf
  split_ifs <;> norm_num

theorem rangeDivisionFactorOf_ge_ten {rs : ℚ} (h : 10 < rs) :
    10 ≤ rangeDivisionFactorOf rs := by
  unfold rangeDivisionFactorOf
  split_ifs <;> norm_num

theorem autoIntervalSize_ge_one {rs : ℚ} (h : 1 < rs) : 1 ≤ autoIntervalSize rs := by
  unfold autoIntervalSize
  split_ifs with h100 h20
  · have hfac : 10 ≤ rangeDivisionFactorOf rs := rangeDivisionFactorOf_ge_ten (by linarith)
    have hdiv : (0 : ℚ) < safe_divide rs (rangeDivisionFactorOf rs : ℚ) := by
      unfold safe_divide
      rw [if_neg (by positivity : ¬ ((rangeDivisionFactorOf rs : ℚ) = 0))]
      positivity
    have hceil : (1 : ℤ) ≤ ⌈safe_divide rs (rangeDivisionFactorOf rs : ℚ)⌉ := by
      rw [Int.le_ceil_iff]
      push_cast
      linarith
    have hfac10 : (1 : ℚ) ≤ ((rangeDivisionFactorOf rs / 10 : ℕ) : ℚ) := by
      have h110 : 1 ≤ rangeDivisionFactorOf rs / 10 := by omega
      exact_mod_cast h110
    have hc1 : (1 : ℚ) ≤ (⌈safe_divide rs (rangeDivisionFactorOf rs : ℚ)⌉ : ℚ) := by
      exact_mod_cast hceil
    calc (1 : ℚ) = 1 * 1 := by norm_num
    _ ≤ (⌈safe_divide rs (rangeDivisionFactorOf rs : ℚ)⌉ : ℚ) *
          ((rangeDivisionFactorOf rs / 10 : ℕ) : ℚ) :=
        mul_le_mul hc1 hfac10 (by norm_num) (by linarith)
  · norm_num
  · have hdiv : (0 : ℚ) < safe_divide rs 10 := by
      unfold safe_divide
      norm_num
      linarith
    have hceil : (1 : ℤ) ≤ ⌈safe_divide rs 10⌉ := by
      rw [Int.le_ceil_iff]
      push_cast
      linarith
    exact_mod_cast hceil

theorem autoAdjustedRangeSize_ge {rs : ℚ} (h : 1 < rs) :
    rs ≤ autoAdjustedRangeSize rs := by
  simp only [autoAdjustedRangeSize]
  split_ifs with hm
  · have hIvl : 1 ≤ autoIntervalSize rs := autoIntervalSize_ge_one h
    have htr : 1 ≤ truncToNat (autoIntervalSize rs) := by
      unfold truncToNat truncQ
      rw [if_pos (by linarith)]
      have : (1 : ℤ) ≤ ⌊autoIntervalSize rs⌋ := by
        rw [Int.le_floor]
        push_cast
        linarith
      omega
    have hmod : safeModNat (truncToNat rs) (truncToNat (autoIntervalSize rs)) <
        truncToNat (autoIntervalSize rs) := by
      unfold safeModNat
      rw [if_neg (by omega)]
      exact Nat.mod_lt _ (by omega)
    have hcast : ((truncToNat (autoIntervalSize rs) : ℕ) : ℚ) ≤ autoIntervalSize rs := by
      unfold truncToNat truncQ
      rw [if_pos (by linarith)]
      have hfl : (0 : ℤ) ≤ ⌊autoIntervalSize rs⌋ := by
        rw [Int.le_floor]
        push_cast
        linarith
      have h2 : ((⌊autoIntervalSize rs⌋.toNat : ℕ) : ℚ) = ((⌊autoIntervalSize rs⌋ : ℤ) : ℚ) := by
        exact_mod_cast congrArg (fun z : ℤ => (z : ℚ)) (Int.toNat_of_nonneg hfl)
      rw [h2]
      exact Int.floor_le _
    have hstep : ((safeModNat (truncToNat rs) (truncToNat (autoIntervalSize rs)) : ℕ) : ℚ) ≤
        ((truncToNat (autoIntervalSize rs) : ℕ) : ℚ) - 1 := by
      have hsucc : safeModNat (truncToNat rs) (truncToNat (autoIntervalSize rs)) + 1 ≤
          truncToNat (autoIntervalSize rs) := hmod
      have hq := (Nat.cast_le (α := ℚ)).mpr hsucc
      push_cast at hq
      linarith
    linarith
  · exact le_refl rs

/-- C5: auto-interval snapping.  `SetRange(0, 47)` with default precision
resolves to interval 5 with the stored range end grown to 50; `SetRange(0,
0.6)` resolves to interval 0.2 with a display precision of at least 1; and in
general (for a requested `start <= end`) the upper endpoint of the stored
range (`rangeEnd`, or `rangeStart` for a reversed axis, which stores the
range inverted) is never less than the requested end. -/
theorem C5_auto_interval_snapping :
    (defaultAxis.SetRangeAuto 0 47 0 false).m_interval = 5 ∧
    (defaultAxis.SetRangeAuto 0 47 0 false).m_rangeEnd = 50 ∧
    (defaultAxis.SetRangeAuto 0 (3 / 5) 0 false).m_interval = 1 / 5 ∧
    1 ≤ (defaultAxis.SetRangeAuto 0 (3 / 5) 0 false).m_displayPrecision ∧
    (∀ (a : Axis) (s e : ℚ) (p : ℕ) (x : Bool), s ≤ e →
      e ≤ max ((a.SetRangeAuto s e p x).m_rangeStart)
              ((a.SetRangeAuto s e p x).m_rangeEnd)) := by
  have hform : defaultAxis.SetRangeAuto 0 47 0 false = defaultAxis.SetRange 0 50 0 5 1 := by
    simp only [Axis.SetRangeAuto]
    norm_num [defaultAxis, autoAdjustedRangeSize, autoIntervalSize,
      rangeDivisionFactorOf, safeModNat, truncToNat, truncQ,
      show Int.toNat 47 = 47 from rfl, show Int.toNat 5 = 5 from rfl]
  have hform2 : defaultAxis.SetRangeAuto 0 (3 / 5) 0 false =
      defaultAxis.SetRange 0 (3 / 5) 1 (1 / 5) 1 := by
    simp only [Axis.SetRangeAuto]
    norm_num [defaultAxis]
  have h11 : walkCount (0 : ℚ) 50 5 = 11 := by
    unfold walkCount
    norm_num
  refine ⟨?_, ?_, ?_, ?_, ?_⟩
  · rw [hform]
    simp only [Axis.SetRange]
    norm_num [defaultAxis]
  · rw [hform]
    simp only [Axis.SetRange]
    norm_num [defaultAxis, h11]
    rcases genPointsAux_getLast_value 5 0 1 11 0 1 (by omega) with ⟨q, hq, hqv⟩
    rw [hq]
    simp only
    rw [hqv]
    norm_num
  · rw [hform2]
    simp only [Axis.SetRange]
    norm_num [defaultAxis]
  · rw [hform2]
    simp only [Axis.SetRange]
    norm_num [defaultAxis]
  · intro a s e p x hse
    simp only [Axis.SetRangeAuto]
    have hclamp : (if a.m_startAtZero = true then min 0 s else s) ≤ s := by
      split
      · exact min_le_right 0 s
      · exact le_refl s
    by_cases hle : e - (if a.m_startAtZero = true then min 0 s else s) ≤ 1
    · rw [if_pos hle]
      have hpad : (0 : ℚ) ≤ (if x = true then 1 / 5 else 0) := by
        split <;> norm_num
      have hge : e ≤ (if a.m_startAtZero = true then min 0 s else s) +
          ((e - (if a.m_startAtZero = true then min 0 s else s)) +
            (if x = true then 1 / 5 else 0)) := by
        linarith
      refine le_trans hge ?_
      apply SetRange_realized_end _ _ _ _ _ _ (by norm_num)
      have : (if a.m_startAtZero = true then
          min 0 (if a.m_startAtZero = true then min 0 s else s)
          else (if a.m_startAtZero = true then min 0 s else s)) ≤
          (if a.m_startAtZero = true then min 0 s else s) := by
        split
        · exact min_le_right _ _
        · exact le_refl _
      refine le_trans this ?_
      linarith [hclamp.trans hse]
    · rw [if_neg hle]
      have hrs : 1 < e - (if a.m_startAtZero = true then min 0 s else s) := by linarith
      have hIvl : 1 ≤ autoIntervalSize (e - (if a.m_startAtZero = true then min 0 s else s)) :=
        autoIntervalSize_ge_one hrs
      have hadj := autoAdjustedRangeSize_ge hrs
      have hpad : (0 : ℚ) ≤ (if x = true then
          autoIntervalSize (e - (if a.m_startAtZero = true then min 0 s else s)) else 0) := by
        split <;> linarith
      have hge : e ≤ (if a.m_startAtZero = true then min 0 s else s) +
          (autoAdjustedRangeSize (e - (if a.m_startAtZero = true then min 0 s else s)) +
            (if x = true then
              autoIntervalSize (e - (if a.m_startAtZero = true then min 0 s else s))
              else 0)) := by
        linarith
      refine le_trans hge ?_
      apply SetRange_realized_end _ _ _ _ _ _ (by linarith)
      have : (if a.m_startAtZero = true then
          min 0 (if a.m_startAtZero = true then min 0 s else s)
          else (if a.m_startAtZero = true then min 0 s else s)) ≤
          (if a.m_startAtZero = true then min 0 s else s) := by
        split
        · exact min_le_right _ _
        · exact le_refl _
      refine le_trans this ?_
      linarith [hclamp.trans hse]

/-- Witness for C5's general clause at the concrete request `(0, 47)`. -/
theorem C5_witness :
    (0 : ℚ) ≤ 47 ∧
    (47 : ℚ) ≤ max ((defaultAxis.SetRangeAuto 0 47 0 false).m_rangeStart)
                   ((defaultAxis.SetRangeAuto 0 47 0 false).m_rangeEnd) :=
  ⟨by norm_num, C5_auto_interval_snapping.2.2.2.2 defaultAxis 0 47 0 false (by norm_num)⟩

/-! Exact-hit behavior of the two coordinate searches, for C1. -/

theorem gpc_exact_branch (a : Axis) (v : ℚ) (k : ℕ) (hk : k < a.m_axisLabels.length)
    (hidx : (if a.m_scaledReserved then reversedFindIdx a.m_axisLabels v
             else lowerBoundIdx a.m_axisLabels v) = k)
    (hveq : (a.m_axisLabels.get ⟨k, hk⟩).value = v) :
    a.GetPhysicalCoordinate v =
      some (truncQ ((a.m_axisLabels.get ⟨k, hk⟩).physicalCoordinate)) := by
  unfold Axis.GetPhysicalCoordinate
  rw [if_neg (by omega)]
  simp only [hidx]
  rw [dif_pos hk, if_pos hveq]

theorem gvfpc_exact_branch (a : Axis) (c : ℤ) (k : ℕ) (hk : k < a.m_axisLabels.length)
    (hidx : valueSearchIdx a.m_type.isHorizontal a.m_axisLabels c = k)
    (hceq : (c : ℚ) = (a.m_axisLabels.get ⟨k, hk⟩).physicalCoordinate) :
    a.GetValueFromPhysicalCoordinate c = some ((a.m_axisLabels.get ⟨k, hk⟩).value) := by
  unfold Axis.GetValueFromPhysicalCoordinate
  rw [if_neg (by omega)]
  simp only [hidx]
  rw [dif_pos hk, if_pos hceq]

theorem gpc_at_point (a : Axis) (k : ℕ) (hk : k < a.m_axisLabels.length)
    (hv : if a.m_scaledReserved = true then
            List.Pairwise (fun p q : AxisPoint => q.value < p.value) a.m_axisLabels
          else
            List.Pairwise (fun p q : AxisPoint => p.value < q.value) a.m_axisLabels) :
    a.GetPhysicalCoordinate ((a.m_axisLabels.get ⟨k, hk⟩).value) =
      some (truncQ ((a.m_axisLabels.get ⟨k, hk⟩).physicalCoordinate)) := by
  apply gpc_exact_branch a _ k hk _ rfl
  cases hrevc : a.m_scaledReserved with
  | false =>
      rw [hrevc] at hv
      simp only [Bool.false_eq_true, if_false] at hv
      simp only [Bool.false_eq_true, if_false]
      apply findIdx_eq_of_first _ _ k hk
      · intro j hj hjk
        have hjlt := (List.pairwise_iff_getElem.mp hv) j k hj hk hjk
        simp only [List.get_eq_getElem, decide_eq_false_iff_not, Decidable.not_not]
        exact hjlt
      · simp
  | true =>
      rw [hrevc] at hv
      simp only [if_pos rfl] at hv
      simp only [if_pos rfl]
      apply findIdx_eq_of_first _ _ k hk
      · intro j hj hjk
        have hjgt := (List.pairwise_iff_getElem.mp hv) j k hj hk hjk
        simp only [List.get_eq_getElem] at hjgt ⊢
        have h1 : ¬ (a.m_axisLabels[j].value ≤ a.m_axisLabels[k].value) := not_le.mpr hjgt
        have h2 : a.m_axisLabels[k].value ≠ a.m_axisLabels[j].value := ne_of_lt hjgt
        simp [compare_doubles, h1, h2]
      · simp [compare_doubles]

theorem gvfpc_at_point (a : Axis) (k : ℕ) (hk : k < a.m_axisLabels.length) (z : ℤ)
    (hz : (a.m_axisLabels.get ⟨k, hk⟩).physicalCoordinate = (z : ℚ))
    (hp : if a.m_type.isHorizontal then
            List.Pairwise (fun p q : AxisPoint =>
              p.physicalCoordinate < q.physicalCoordinate) a.m_axisLabels
          else
            List.Pairwise (fun p q : AxisPoint =>
              q.physicalCoordinate < p.physicalCoordinate) a.m_axisLabels) :
    a.GetValueFromPhysicalCoordinate z = some ((a.m_axisLabels.get ⟨k, hk⟩).value) := by
  apply gvfpc_exact_branch a z k hk _ hz.symm
  cases horc : a.m_type.isHorizontal with
  | true =>
      rw [horc] at hp
      rw [if_pos rfl] at hp
      apply findIdx_eq_of_first _ _ k hk
      · intro j hj hjk
        have hjlt := (List.pairwise_iff_getElem.mp hp) j k hj hk hjk
        simp only [List.get_eq_getElem] at hjlt hz
        rw [hz] at hjlt
        simpa using hjlt
      · simp only [List.get_eq_getElem] at hz
        simp [hz]
  | false =>
      rw [horc] at hp
      rw [if_neg (by simp)] at hp
      apply findIdx_eq_of_first _ _ k hk
      · intro j hj hjk
        have hjgt := (List.pairwise_iff_getElem.mp hp) j k hj hk hjk
        simp only [List.get_eq_getElem] at hjgt hz
        rw [hz] at hjgt
        simpa using hjgt
      · simp only [List.get_eq_getElem] at hz
        simp [hz]

/-- C1 (amended): on every axis whose points are sorted consistently with the
reversal flag and whose physical coordinates are strictly monotone in the
direction of the orientation, a value that is exactly an AxisPoint value
whose resolved physical coordinate is a whole pixel (an integer `z`)
round-trips exactly: `GetPhysicalCoordinate` succeeds with `z` and
`GetValueFromPhysicalCoordinate z` succeeds with the same value.  (With a
fractional stored physical coordinate the result is truncated to a pixel and
the inverse interpolates to a nearby, different value — see the
counterexample.) -/
theorem C1_roundtrip_at_integral_points (a : Axis) (k : ℕ)
    (hk : k < a.m_axisLabels.length)
    (hv : if a.m_scaledReserved = true then
            List.Pairwise (fun p q : AxisPoint => q.value < p.value) a.m_axisLabels
          else
            List.Pairwise (fun p q : AxisPoint => p.value < q.value) a.m_axisLabels)
    (hp : if a.m_type.isHorizontal then
            List.Pairwise (fun p q : AxisPoint =>
              p.physicalCoordinate < q.physicalCoordinate) a.m_axisLabels
          else
            List.Pairwise (fun p q : AxisPoint =>
              q.physicalCoordinate < p.physicalCoordinate) a.m_axisLabels)
    (z : ℤ) (hz : (a.m_axisLabels.get ⟨k, hk⟩).physicalCoordinate = (z : ℚ)) :
    a.GetPhysicalCoordinate ((a.m_axisLabels.get ⟨k, hk⟩).value) = some z ∧
    a.GetValueFromPhysicalCoordinate z = some ((a.m_axisLabels.get ⟨k, hk⟩).value) := by
  constructor
  · rw [gpc_at_point a k hk hv, hz, truncQ_intCast]
  · exact gvfpc_at_point a k hk z hz hp

/-- Witness for C1's amended theorem on a concrete integral-coordinate axis. -/
theorem C1_witness :
    witnessAxisH.GetPhysicalCoordinate 1 = some 10 ∧
    witnessAxisH.GetValueFromPhysicalCoordinate 10 = some 1 := by
  have h := C1_roundtrip_at_integral_points witnessAxisH 1 (by norm_num [witnessAxisH, defaultAxis])
    (by norm_num [witnessAxisH, defaultAxis, List.pairwise_cons])
    (by norm_num [witnessAxisH, defaultAxis, List.pairwise_cons,
      AxisType.isHorizontal, AxisType.isVertical])
    10 (by norm_num [witnessAxisH, defaultAxis])
  have hval : (witnessAxisH.m_axisLabels.get
      ⟨1, by norm_num [witnessAxisH, defaultAxis]⟩).value = 1 := by
    norm_num [witnessAxisH, defaultAxis]
  rw [hval] at h
  exact h

/-- The interpolation branch of `Axis::GetValueFromPhysicalCoordinate` for a
horizontal axis, exposed as an equation for concrete evaluation. -/
theorem gvfpc_interp_branch (a : Axis) (c : ℤ) (k : ℕ) (hk : k < a.m_axisLabels.length)
    (hidx : valueSearchIdx a.m_type.isHorizontal a.m_axisLabels c = k)
    (hne : (c : ℚ) ≠ (a.m_axisLabels.get ⟨k, hk⟩).physicalCoordinate)
    (hk0 : ¬ k = 0) (hhor : a.m_type.isHorizontal = true) :
    a.GetValueFromPhysicalCoordinate c = some
      ((a.m_axisLabels.get ⟨k - 1, Nat.lt_of_le_of_lt (Nat.sub_le k 1) hk⟩).value +
        ((a.m_axisLabels.get ⟨k, hk⟩).value -
          (a.m_axisLabels.get ⟨k - 1, Nat.lt_of_le_of_lt (Nat.sub_le k 1) hk⟩).value) *
        safe_divide ((c : ℚ) -
            (a.m_axisLabels.get ⟨k - 1, Nat.lt_of_le_of_lt (Nat.sub_le k 1) hk⟩).physicalCoordinate)
          ((a.m_axisLabels.get ⟨k, hk⟩).physicalCoordinate -
            (a.m_axisLabels.get ⟨k - 1, Nat.lt_of_le_of_lt (Nat.sub_le k 1) hk⟩).physicalCoordinate)) := by
  unfold Axis.GetValueFromPhysicalCoordinate
  rw [if_neg (by omega)]
  simp only [hidx]
  rw [dif_pos hk, if_neg hne, if_neg hk0]
  simp only [hhor, if_true]

/-- An axis exactly as the numeric `SetRange(0, 2, precision 0, interval 1)`
leaves a default bottom axis: three points at values 0, 1, 2 with unresolved
(sentinel) physical coordinates. -/
def axC1pre : Axis :=
  { defaultAxis with
      m_axisLabels := [⟨0, "0", true, -1⟩, ⟨1, "1", true, -1⟩, ⟨2, "2", true, -1⟩],
      m_rangeStart := 0, m_rangeEnd := 2 }

/-- Counterexample to C1 as stated: assigning the physical endpoints (0,0) and
(3,0) to the three-point axis resolves the middle point's physical coordinate
to the fractional pixel 3/2; `GetPhysicalCoordinate(1)` truncates it to the
pixel 1, and `GetValueFromPhysicalCoordinate(1)` then interpolates back to
2/3, not the original value 1 — the round trip at an AxisPoint value is not
exact. -/
theorem C1_counterexample :
    (axC1pre.SetPoints (0, 0) (3, 0)).GetPhysicalCoordinate 1 = some 1 ∧
    (axC1pre.SetPoints (0, 0) (3, 0)).GetValueFromPhysicalCoordinate 1 = some (2 / 3) ∧
    (2 : ℚ) / 3 ≠ 1 := by
  have hax : axC1pre.SetPoints (0, 0) (3, 0) =
      { axC1pre with
          m_points1 := ((0 : ℤ), (0 : ℤ)), m_points2 := ((3 : ℤ), (0 : ℤ)),
          m_labelSpacingPhysicalOffset := 3 / 2,
          m_axisLabels :=
            [⟨0, "0", true, 0⟩, ⟨1, "1", true, 3 / 2⟩, ⟨2, "2", true, 3⟩] } := by
    simp only [Axis.SetPoints, Axis.CalcLabelPositions, Axis.CalcTickMarkPositions,
      setPhysicalCoordinates, axC1pre, defaultAxis, AxisType.isVertical]
    norm_num [safe_divide]
  rw [hax]
  refine ⟨?_, ?_, by norm_num⟩
  · have hidx : (if ({ axC1pre with
          m_points1 := ((0 : ℤ), (0 : ℤ)), m_points2 := ((3 : ℤ), (0 : ℤ)),
          m_labelSpacingPhysicalOffset := 3 / 2,
          m_axisLabels :=
            [⟨0, "0", true, 0⟩, ⟨1, "1", true, 3 / 2⟩, ⟨2, "2", true, 3⟩] } :
          Axis).m_scaledReserved
        then reversedFindIdx [⟨0, "0", true, 0⟩, ⟨1, "1", true, 3 / 2⟩, ⟨2, "2", true, 3⟩] 1
        else lowerBoundIdx [⟨0, "0", true, 0⟩, ⟨1, "1", true, 3 / 2⟩, ⟨2, "2", true, 3⟩] 1) =
        1 := by
      norm_num [axC1pre, defaultAxis, lowerBoundIdx, List.findIdx_cons]
    have h := gpc_exact_branch _ 1 1 (by norm_num [axC1pre, defaultAxis]) hidx
      (by norm_num [axC1pre, defaultAxis])
    rw [h]
    norm_num [axC1pre, defaultAxis, truncQ]
  · have hidx : valueSearchIdx ({ axC1pre with
          m_points1 := ((0 : ℤ), (0 : ℤ)), m_points2 := ((3 : ℤ), (0 : ℤ)),
          m_labelSpacingPhysicalOffset := 3 / 2,
          m_axisLabels :=
            [⟨0, "0", true, 0⟩, ⟨1, "1", true, 3 / 2⟩, ⟨2, "2", true, 3⟩] } :
          Axis).m_type.isHorizontal
        [⟨0, "0", true, 0⟩, ⟨1, "1", true, 3 / 2⟩, ⟨2, "2", true, 3⟩] 1 = 1 := by
      norm_num [axC1pre, defaultAxis, valueSearchIdx, List.findIdx_cons,
        AxisType.isHorizontal, AxisType.isVertical]
    have h := gvfpc_interp_branch _ 1 1 (by norm_num [axC1pre, defaultAxis]) hidx
      (by norm_num [axC1pre, defaultAxis]) (by norm_num)
      (by norm_num [axC1pre, defaultAxis, AxisType.isHorizontal, AxisType.isVertical])
    rw [h]
    norm_num [axC1pre, defaultAxis, safe_divide]

/-! Monotonicity machinery for C2.  `interpH` and `interpV` name the two
interpolation expressions of `Axis::GetPhysicalCoordinate` (horizontal and
vertical), so that facts about the interpolated pixel can be stated once. -/

/-- The horizontal interpolation of `Axis::GetPhysicalCoordinate`
(axis.cpp:2944-2951): previous pixel plus the truncated pixel difference times
the value fraction, truncated to a `wxCoord`. -/
def interpH (pp pc pv cv v : ℚ) : ℤ :=
  truncQ (pp + (truncQ (pc - pp) : ℚ) * safe_divide (v - pv) (cv - pv))

/-- The vertical interpolation of `Axis::GetPhysicalCoordinate`
(axis.cpp:2952-2959). -/
def interpV (pp pc pv cv v : ℚ) : ℤ :=
  truncQ (pp - (truncQ (pp - pc) : ℚ) * safe_divide (v - pv) (cv - pv))

theorem interpH_bounds (pp pc pv cv v : ℚ) (hphys : pp ≤ pc) (hv1 : pv < v)
    (hv2 : v < cv) : truncQ pp ≤ interpH pp pc pv cv v ∧
      interpH pp pc pv cv v ≤ truncQ pc := by
  unfold interpH
  have hd : 0 < cv - pv := by linarith
  have hpct0 : 0 ≤ safe_divide (v - pv) (cv - pv) := by
    unfold safe_divide
    rw [if_neg (ne_of_gt hd)]
    exact div_nonneg (by linarith) (le_of_lt hd)
  have hpct1 : safe_divide (v - pv) (cv - pv) ≤ 1 := by
    unfold safe_divide
    rw [if_neg (ne_of_gt hd)]
    rw [div_le_one hd]
    linarith
  have hD : (0 : ℚ) ≤ pc - pp := by linarith
  have hTD0 : (0 : ℚ) ≤ (truncQ (pc - pp) : ℚ) := by exact_mod_cast truncQ_nonneg hD
  have hTDle : (truncQ (pc - pp) : ℚ) ≤ pc - pp := truncQ_cast_le hD
  constructor
  · apply truncQ_mono
    nlinarith [mul_nonneg hTD0 hpct0]
  · apply truncQ_mono
    nlinarith [mul_le_mul_of_nonneg_left hpct1 hTD0]

theorem interpH_mono (pp pc pv cv v1 v2 : ℚ) (hphys : pp ≤ pc) (hd : pv < cv)
    (h12 : v1 ≤ v2) : interpH pp pc pv cv v1 ≤ interpH pp pc pv cv v2 := by
  unfold interpH
  have hd0 : 0 < cv - pv := by linarith
  have hD : (0 : ℚ) ≤ pc - pp := by linarith
  have hTD0 : (0 : ℚ) ≤ (truncQ (pc - pp) : ℚ) := by exact_mod_cast truncQ_nonneg hD
  have hpct : safe_divide (v1 - pv) (cv - pv) ≤ safe_divide (v2 - pv) (cv - pv) := by
    unfold safe_divide
    rw [if_neg (ne_of_gt hd0), if_neg (ne_of_gt hd0)]
    exact (div_le_div_iff_of_pos_right hd0).mpr (by linarith)
  apply truncQ_mono
  nlinarith [mul_le_mul_of_nonneg_left hpct hTD0]

theorem interpV_bounds (pp pc pv cv v : ℚ) (hphys : pc ≤ pp) (hv1 : pv < v)
    (hv2 : v < cv) : truncQ pc ≤ interpV pp pc pv cv v ∧
      interpV pp pc pv cv v ≤ truncQ pp := by
  unfold interpV
  have hd : 0 < cv - pv := by linarith
  have hpct0 : 0 ≤ safe_divide (v - pv) (cv - pv) := by
    unfold safe_divide
    rw [if_neg (ne_of_gt hd)]
    exact div_nonneg (by linarith) (le_of_lt hd)
  have hpct1 : safe_divide (v - pv) (cv - pv) ≤ 1 := by
    unfold safe_divide
    rw [if_neg (ne_of_gt hd)]
    rw [div_le_one hd]
    linarith
  have hD : (0 : ℚ) ≤ pp - pc := by linarith
  have hTD0 : (0 : ℚ) ≤ (truncQ (pp - pc) : ℚ) := by exact_mod_cast truncQ_nonneg hD
  have hTDle : (truncQ (pp - pc) : ℚ) ≤ pp - pc := truncQ_cast_le hD
  constructor
  · apply truncQ_mono
    nlinarith [mul_le_mul_of_nonneg_left hpct1 hTD0]
  · apply truncQ_mono
    nlinarith [mul_nonneg hTD0 hpct0]

theorem interpV_anti (pp pc pv cv v1 v2 : ℚ) (hphys : pc ≤ pp) (hd : pv < cv)
    (h12 : v1 ≤ v2) : interpV pp pc pv cv v2 ≤ interpV pp pc pv cv v1 := by
  unfold interpV
  have hd0 : 0 < cv - pv := by linarith
  have hD : (0 : ℚ) ≤ pp - pc := by linarith
  have hTD0 : (0 : ℚ) ≤ (truncQ (pp - pc) : ℚ) := by exact_mod_cast truncQ_nonneg hD
  have hpct : safe_divide (v1 - pv) (cv - pv) ≤ safe_divide (v2 - pv) (cv - pv) := by
    unfold safe_divide
    rw [if_neg (ne_of_gt hd0), if_neg (ne_of_gt hd0)]
    exact (div_le_div_iff_of_pos_right hd0).mpr (by linarith)
  apply truncQ_mono
  nlinarith [mul_le_mul_of_nonneg_left hpct hTD0]

theorem lowerBoundIdx_before {pts : List AxisPoint} {v : ℚ} {j : ℕ}
    (hj : j < lowerBoundIdx pts v) (hjl : j < pts.length) : pts[j].value < v := by
  unfold lowerBoundIdx at hj
  have h := List.not_of_lt_findIdx hj
  simpa using h

theorem lowerBoundIdx_at {pts : List AxisPoint} {v : ℚ}
    (h : lowerBoundIdx pts v < pts.length) :
    v ≤ pts[lowerBoundIdx pts v].value := by
  unfold lowerBoundIdx at h ⊢
  have hg := List.findIdx_getElem (w := h)
  simpa [not_lt] using hg

theorem lowerBoundIdx_mono (pts : List AxisPoint) {v1 v2 : ℚ} (h : v1 ≤ v2) :
    lowerBoundIdx pts v1 ≤ lowerBoundIdx pts v2 := by
  apply findIdx_mono_pred
  intro x hx
  simp only [decide_eq_true_eq, not_lt] at hx ⊢
  linarith

theorem gpc_some_elim (a : Axis) (hrev : a.m_scaledReserved = false) {v : ℚ} {r : ℤ}
    (h : a.GetPhysicalCoordinate v = some r) :
    ∃ i, ∃ hi : i < a.m_axisLabels.length,
      lowerBoundIdx a.m_axisLabels v = i ∧
      ((a.m_axisLabels[i].value = v ∧
          r = truncQ (a.m_axisLabels[i].physicalCoordinate)) ∨
       (a.m_axisLabels[i].value ≠ v ∧ 0 < i ∧
        r = if a.m_type.isHorizontal then
              interpH (a.m_axisLabels[i - 1].physicalCoordinate)
                (a.m_axisLabels[i].physicalCoordinate)
                (a.m_axisLabels[i - 1].value) (a.m_axisLabels[i].value) v
            else
              interpV (a.m_axisLabels[i - 1].physicalCoordinate)
                (a.m_axisLabels[i].physicalCoordinate)
                (a.m_axisLabels[i - 1].value) (a.m_axisLabels[i].value) v)) := by
  unfold Axis.GetPhysicalCoordinate at h
  by_cases hlen : a.m_axisLabels.length = 0
  · rw [if_pos hlen] at h
    exact absurd h (by simp)
  rw [if_neg hlen] at h
  simp only [hrev, Bool.false_eq_true, if_false] at h
  by_cases hlt : lowerBoundIdx a.m_axisLabels v < a.m_axisLabels.length
  · rw [dif_pos hlt] at h
    by_cases hexact : (a.m_axisLabels.get ⟨lowerBoundIdx a.m_axisLabels v, hlt⟩).value = v
    · rw [if_pos hexact] at h
      refine ⟨lowerBoundIdx a.m_axisLabels v, hlt, rfl, Or.inl ⟨?_, ?_⟩⟩
      · simpa [List.get_eq_getElem] using hexact
      · have := Option.some.inj h
        simp only [List.get_eq_getElem] at this
        exact this.symm
    · rw [if_neg hexact] at h
      by_cases hzero : lowerBoundIdx a.m_axisLabels v = 0
      · rw [if_pos hzero] at h
        exact absurd h (by simp)
      · rw [if_neg hzero] at h
        refine ⟨lowerBoundIdx a.m_axisLabels v, hlt, rfl,
          Or.inr ⟨by simpa [List.get_eq_getElem] using hexact, by omega, ?_⟩⟩
        cases hor : a.m_type.isHorizontal with
        | true =>
            rw [hor] at h
            rw [if_pos rfl] at h
            rw [if_pos rfl]
            have := Option.some.inj h
            simp only [List.get_eq_getElem] at this
            exact this.symm
        | false =>
            rw [hor] at h
            rw [if_neg (show ¬(false = true) by simp)] at h
            rw [if_neg (show ¬(false = true) by simp)]
            have := Option.some.inj h
            simp only [List.get_eq_getElem] at this
            exact this.symm
  · rw [dif_neg hlt] at h
    exact absurd h (by simp)

theorem safe_divide_nonneg {x y : ℚ} (hx : 0 ≤ x) (hy : 0 ≤ y) :
    0 ≤ safe_divide x y := by
  unfold safe_divide
  split_ifs
  · exact le_refl 0
  · exact div_nonneg hx hy

theorem setPhysicalCoordinates_length (f : ℕ → ℚ) :
    ∀ (s : ℕ) (l : List AxisPoint), (setPhysicalCoordinates f s l).length = l.length
  | _, [] => rfl
  | s, _ :: rest => by
      simp only [setPhysicalCoordinates, List.length_cons]
      rw [setPhysicalCoordinates_length f (s + 1) rest]

theorem setPhysicalCoordinates_getElem (f : ℕ → ℚ) :
    ∀ (s : ℕ) (l : List AxisPoint) (k : ℕ) (hk1 : k < l.length)
      (hk2 : k < (setPhysicalCoordinates f s l).length),
      (setPhysicalCoordinates f s l)[k] =
        { l[k] with physicalCoordinate := f (s + k) }
  | s, p :: rest, 0, _, _ => by
      simp [setPhysicalCoordinates]
  | s, p :: rest, k + 1, hk1, hk2 => by
      have hk3 : k < rest.length := by simpa using hk1
      have hk4 : k < (setPhysicalCoordinates f (s + 1) rest).length := by
        rw [setPhysicalCoordinates_length]
        exact hk3
      simp only [setPhysicalCoordinates, List.getElem_cons_succ]
      rw [setPhysicalCoordinates_getElem f (s + 1) rest k hk3 hk4]
      have hss : s + 1 + k = s + (k + 1) := by omega
      rw [hss]

theorem setPhysicalCoordinates_mono_pairwise (f : ℕ → ℚ)
    (hf : ∀ i j : ℕ, i ≤ j → f i ≤ f j) (s : ℕ) (l : List AxisPoint) :
    List.Pairwise (fun p q : AxisPoint =>
      p.physicalCoordinate ≤ q.physicalCoordinate) (setPhysicalCoordinates f s l) := by
  rw [List.pairwise_iff_getElem]
  intro i j hi hj hij
  have hi1 : i < l.length := by
    rw [setPhysicalCoordinates_length] at hi
    exact hi
  have hj1 : j < l.length := by
    rw [setPhysicalCoordinates_length] at hj
    exact hj
  rw [setPhysicalCoordinates_getElem f s l i hi1 hi,
      setPhysicalCoordinates_getElem f s l j hj1 hj]
  exact hf (s + i) (s + j) (by omega)

theorem setPhysicalCoordinates_anti_pairwise (f : ℕ → ℚ)
    (hf : ∀ i j : ℕ, i ≤ j → f j ≤ f i) (s : ℕ) (l : List AxisPoint) :
    List.Pairwise (fun p q : AxisPoint =>
      q.physicalCoordinate ≤ p.physicalCoordinate) (setPhysicalCoordinates f s l) := by
  rw [List.pairwise_iff_getElem]
  intro i j hi hj hij
  have hi1 : i < l.length := by
    rw [setPhysicalCoordinates_length] at hi
    exact hi
  have hj1 : j < l.length := by
    rw [setPhysicalCoordinates_length] at hj
    exact hj
  rw [setPhysicalCoordinates_getElem f s l i hi1 hi,
      setPhysicalCoordinates_getElem f s l j hj1 hj]
  exact hf (s + i) (s + j) (by omega)

theorem CalcLabelPositions_offset_nonneg (a : Axis) :
    0 ≤ (a.CalcLabelPositions).m_labelSpacingPhysicalOffset := by
  unfold Axis.CalcLabelPositions
  split_ifs <;> exact safe_divide_nonneg (by positivity) (by positivity)

theorem CalcLabelPositions_type (a : Axis) :
    (a.CalcLabelPositions).m_type = a.m_type := by
  unfold Axis.CalcLabelPositions
  split_ifs <;> rfl

/-- After `Axis::CalcTickMarkPositions` with a nonnegative label spacing, the
physical coordinates of the points run left-to-right on a horizontal axis and
top-to-bottom (decreasing coordinate with the index, whose values ascend) on a
vertical axis. -/
theorem calcTick_phys_sorted (a : Axis) (hoff : 0 ≤ a.m_labelSpacingPhysicalOffset) :
    if a.m_type.isHorizontal then
      List.Pairwise (fun p q : AxisPoint =>
        p.physicalCoordinate ≤ q.physicalCoordinate)
        (a.CalcTickMarkPositions).m_axisLabels
    else
      List.Pairwise (fun p q : AxisPoint =>
        q.physicalCoordinate ≤ p.physicalCoordinate)
        (a.CalcTickMarkPositions).m_axisLabels := by
  unfold Axis.CalcTickMarkPositions AxisType.isHorizontal
  cases hvert : a.m_type.isVertical with
  | false =>
      simp only [Bool.not_false, eq_self_iff_true, if_true, Bool.false_eq_true, if_false]
      exact setPhysicalCoordinates_mono_pairwise _
        (fun i j hij => by
          have hc : (i : ℚ) ≤ (j : ℚ) := by exact_mod_cast hij
          have := mul_le_mul_of_nonneg_left hc hoff
          linarith) 0 _
  | true =>
      simp only [Bool.not_true, Bool.false_eq_true, if_false, eq_self_iff_true, if_true]
      exact setPhysicalCoordinates_anti_pairwise _
        (fun i j hij => by
          have hc : (i : ℚ) ≤ (j : ℚ) := by exact_mod_cast hij
          have := mul_le_mul_of_nonneg_left hc hoff
          linarith) 0 _

/-- After `Axis::SetPoints` the points' physical coordinates are sorted:
nondecreasing along a horizontal axis, nonincreasing along a vertical one.
This discharges the sortedness hypotheses of `C2_monotonicity` for every axis
whose physical endpoints were assigned through `SetPoints`. -/
theorem SetPoints_phys_sorted (a : Axis) (pt1 pt2 : ℤ × ℤ) :
    if a.m_type.isHorizontal then
      List.Pairwise (fun p q : AxisPoint =>
        p.physicalCoordinate ≤ q.physicalCoordinate)
        (a.SetPoints pt1 pt2).m_axisLabels
    else
      List.Pairwise (fun p q : AxisPoint =>
        q.physicalCoordinate ≤ p.physicalCoordinate)
        (a.SetPoints pt1 pt2).m_axisLabels := by
  have key : ∀ b : Axis, b.m_type = a.m_type →
      (if a.m_type.isHorizontal then
        List.Pairwise (fun p q : AxisPoint =>
          p.physicalCoordinate ≤ q.physicalCoordinate)
          ((b.CalcLabelPositions).CalcTickMarkPositions).m_axisLabels
      else
        List.Pairwise (fun p q : AxisPoint =>
          q.physicalCoordinate ≤ p.physicalCoordinate)
          ((b.CalcLabelPositions).CalcTickMarkPositions).m_axisLabels) := by
    intro b hbt
    have h := calcTick_phys_sorted (b.CalcLabelPositions) (CalcLabelPositions_offset_nonneg b)
    rw [CalcLabelPositions_type, hbt] at h
    exact h
  simp only [Axis.SetPoints]
  exact key _ (by split_ifs <;> rfl)

theorem gpc_interp_case_bounds_H (l : List AxisPoint) (v : ℚ) (i : ℕ)
    (hi : i < l.length) (hl : lowerBoundIdx l v = i)
    (hne : l[i].value ≠ v) (hpos : 0 < i)
    (hphys : l[i - 1].physicalCoordinate ≤ l[i].physicalCoordinate) :
    truncQ (l[i - 1].physicalCoordinate) ≤
        interpH (l[i - 1].physicalCoordinate) (l[i].physicalCoordinate)
          (l[i - 1].value) (l[i].value) v ∧
      interpH (l[i - 1].physicalCoordinate) (l[i].physicalCoordinate)
          (l[i - 1].value) (l[i].value) v ≤ truncQ (l[i].physicalCoordinate) := by
  have hbef := @lowerBoundIdx_before l v (i - 1) (by rw [hl]; omega) (by omega)
  have hat := @lowerBoundIdx_at l v (by rw [hl]; exact hi)
  simp only [hl] at hat
  exact interpH_bounds _ _ _ _ _ hphys hbef (lt_of_le_of_ne hat (Ne.symm hne))

theorem gpc_interp_case_bounds_V (l : List AxisPoint) (v : ℚ) (i : ℕ)
    (hi : i < l.length) (hl : lowerBoundIdx l v = i)
    (hne : l[i].value ≠ v) (hpos : 0 < i)
    (hphys : l[i].physicalCoordinate ≤ l[i - 1].physicalCoordinate) :
    truncQ (l[i].physicalCoordinate) ≤
        interpV (l[i - 1].physicalCoordinate) (l[i].physicalCoordinate)
          (l[i - 1].value) (l[i].value) v ∧
      interpV (l[i - 1].physicalCoordinate) (l[i].physicalCoordinate)
          (l[i - 1].value) (l[i].value) v ≤ truncQ (l[i - 1].physicalCoordinate) := by
  have hbef := @lowerBoundIdx_before l v (i - 1) (by rw [hl]; omega) (by omega)
  have hat := @lowerBoundIdx_at l v (by rw [hl]; exact hi)
  simp only [hl] at hat
  exact interpV_bounds _ _ _ _ _ hphys hbef (lt_of_le_of_ne hat (Ne.symm hne))

set_option maxHeartbeats 1600000 in
/-- **C2.** Monotonicity of the coordinate mapping: on a non-reversed axis
whose points have strictly increasing values and physical coordinates assigned
consistently with the orientation (nondecreasing left-to-right on a horizontal
axis, nonincreasing with the index on a vertical axis, as `SetPoints`
establishes — see `SetPoints_phys_sorted`), whenever `GetPhysicalCoordinate`
succeeds on `v1 < v2` the pixel for `v1` is `≤` the pixel for `v2` on a
horizontal axis and `≥` it on a vertical axis. -/
theorem C2_monotonicity (a : Axis) (hrev : a.m_scaledReserved = false)
    (hv : List.Pairwise (fun p q : AxisPoint => p.value < q.value) a.m_axisLabels)
    (hp : if a.m_type.isHorizontal then
            List.Pairwise (fun p q : AxisPoint =>
              p.physicalCoordinate ≤ q.physicalCoordinate) a.m_axisLabels
          else
            List.Pairwise (fun p q : AxisPoint =>
              q.physicalCoordinate ≤ p.physicalCoordinate) a.m_axisLabels)
    (v1 v2 : ℚ) (r1 r2 : ℤ) (h12 : v1 < v2)
    (h1 : a.GetPhysicalCoordinate v1 = some r1)
    (h2 : a.GetPhysicalCoordinate v2 = some r2) :
    if a.m_type.isHorizontal then r1 ≤ r2 else r2 ≤ r1 := by
  obtain ⟨i1, hi1, hl1, hc1⟩ := gpc_some_elim a hrev h1
  obtain ⟨i2, hi2, hl2, hc2⟩ := gpc_some_elim a hrev h2
  have hi12 : i1 ≤ i2 := by
    rw [← hl1, ← hl2]
    exact lowerBoundIdx_mono a.m_axisLabels (le_of_lt h12)
  have hvg := List.pairwise_iff_getElem.mp hv
  have hvmono : ∀ (j k : ℕ) (hj : j < a.m_axisLabels.length)
      (hk : k < a.m_axisLabels.length), j ≤ k →
      (a.m_axisLabels[j]).value ≤ (a.m_axisLabels[k]).value := by
    intro j k hj hk hjk
    rcases Nat.lt_or_ge j k with hlt | hge
    · exact le_of_lt (hvg j k hj hk hlt)
    · have hjk2 : j = k := by omega
      subst hjk2
      exact le_refl _
  have hv2at : v2 ≤ (a.m_axisLabels[i2]).value := by
    have h := @lowerBoundIdx_at a.m_axisLabels v2 (by rw [hl2]; exact hi2)
    simpa only [hl2] using h
  cases hor : a.m_type.isHorizontal with
  | true =>
      rw [hor] at hp
      rw [if_pos rfl] at hp
      rw [if_pos rfl]
      have hpg := List.pairwise_iff_getElem.mp hp
      have hpmono : ∀ (j k : ℕ) (hj : j < a.m_axisLabels.length)
          (hk : k < a.m_axisLabels.length), j ≤ k →
          (a.m_axisLabels[j]).physicalCoordinate ≤
            (a.m_axisLabels[k]).physicalCoordinate := by
        intro j k hj hk hjk
        rcases Nat.lt_or_ge j k with hlt | hge
        · exact hpg j k hj hk hlt
        · have hjk2 : j = k := by omega
          subst hjk2
          exact le_refl _
      rcases hc1 with ⟨hx1, hr1⟩ | ⟨hne1, hpos1, hr1⟩ <;>
        rcases hc2 with ⟨hx2, hr2⟩ | ⟨hne2, hpos2, hr2⟩
      · rw [hr1, hr2]
        exact truncQ_mono (hpmono i1 i2 hi1 hi2 hi12)
      · rw [hor] at hr2
        rw [if_pos rfl] at hr2
        have hi1lt : i1 < i2 := by
          by_contra hcon
          push_neg at hcon
          have hle := hvmono i2 i1 hi2 hi1 hcon
          rw [hx1] at hle
          linarith
        have hphys2 := hpmono (i2 - 1) i2 (by omega) hi2 (by omega)
        have hb2 := gpc_interp_case_bounds_H a.m_axisLabels v2 i2 hi2 hl2 hne2 hpos2 hphys2
        rw [hr1, hr2]
        exact le_trans (truncQ_mono (hpmono i1 (i2 - 1) hi1 (by omega) (by omega))) hb2.1
      · rw [hor] at hr1
        rw [if_pos rfl] at hr1
        have hphys1 := hpmono (i1 - 1) i1 (by omega) hi1 (by omega)
        have hb1 := gpc_interp_case_bounds_H a.m_axisLabels v1 i1 hi1 hl1 hne1 hpos1 hphys1
        rw [hr1, hr2]
        exact le_trans hb1.2 (truncQ_mono (hpmono i1 i2 hi1 hi2 hi12))
      · rw [hor] at hr1 hr2
        rw [if_pos rfl] at hr1 hr2
        by_cases hii : i1 = i2
        · subst hii
          have hd : (a.m_axisLabels[i1 - 1]).value < (a.m_axisLabels[i1]).value :=
            hvg (i1 - 1) i1 (by omega) hi1 (by omega)
          have hphys1 := hpmono (i1 - 1) i1 (by omega) hi1 (by omega)
          rw [hr1, hr2]
          exact interpH_mono _ _ _ _ v1 v2 hphys1 hd (le_of_lt h12)
        · have hi1lt : i1 < i2 := lt_of_le_of_ne hi12 hii
          have hphys1 := hpmono (i1 - 1) i1 (by omega) hi1 (by omega)
          have hphys2 := hpmono (i2 - 1) i2 (by omega) hi2 (by omega)
          have hb1 := gpc_interp_case_bounds_H a.m_axisLabels v1 i1 hi1 hl1 hne1 hpos1 hphys1
          have hb2 := gpc_interp_case_bounds_H a.m_axisLabels v2 i2 hi2 hl2 hne2 hpos2 hphys2
          rw [hr1, hr2]
          exact le_trans hb1.2 (le_trans
            (truncQ_mono (hpmono i1 (i2 - 1) hi1 (by omega) (by omega))) hb2.1)
  | false =>
      rw [hor] at hp
      rw [if_neg (show ¬(false = true) by simp)] at hp
      rw [if_neg (show ¬(false = true) by simp)]
      have hpg := List.pairwise_iff_getElem.mp hp
      have hpmono : ∀ (j k : ℕ) (hj : j < a.m_axisLabels.length)
          (hk : k < a.m_axisLabels.length), j ≤ k →
          (a.m_axisLabels[k]).physicalCoordinate ≤
            (a.m_axisLabels[j]).physicalCoordinate := by
        intro j k hj hk hjk
        rcases Nat.lt_or_ge j k with hlt | hge
        · exact hpg j k hj hk hlt
        · have hjk2 : j = k := by omega
          subst hjk2
          exact le_refl _
      rcases hc1 with ⟨hx1, hr1⟩ | ⟨hne1, hpos1, hr1⟩ <;>
        rcases hc2 with ⟨hx2, hr2⟩ | ⟨hne2, hpos2, hr2⟩
      · rw [hr1, hr2]
        exact truncQ_mono (hpmono i1 i2 hi1 hi2 hi12)
      · rw [hor] at hr2
        rw [if_neg (show ¬(false = true) by simp)] at hr2
        have hi1lt : i1 < i2 := by
          by_contra hcon
          push_neg at hcon
          have hle := hvmono i2 i1 hi2 hi1 hcon
          rw [hx1] at hle
          linarith
        have hphys2 := hpmono (i2 - 1) i2 (by omega) hi2 (by omega)
        have hb2 := gpc_interp_case_bounds_V a.m_axisLabels v2 i2 hi2 hl2 hne2 hpos2 hphys2
        rw [hr1, hr2]
        exact le_trans hb2.2 (truncQ_mono (hpmono i1 (i2 - 1) hi1 (by omega) (by omega)))
      · rw [hor] at hr1
        rw [if_neg (show ¬(false = true) by simp)] at hr1
        have hphys1 := hpmono (i1 - 1) i1 (by omega) hi1 (by omega)
        have hb1 := gpc_interp_case_bounds_V a.m_axisLabels v1 i1 hi1 hl1 hne1 hpos1 hphys1
        rw [hr1, hr2]
        exact le_trans (truncQ_mono (hpmono i1 i2 hi1 hi2 hi12)) hb1.1
      · rw [hor] at hr1 hr2
        rw [if_neg (show ¬(false = true) by simp)] at hr1 hr2
        by_cases hii : i1 = i2
        · subst hii
          have hd : (a.m_axisLabels[i1 - 1]).value < (a.m_axisLabels[i1]).value :=
            hvg (i1 - 1) i1 (by omega) hi1 (by omega)
          have hphys1 := hpmono (i1 - 1) i1 (by omega) hi1 (by omega)
          rw [hr1, hr2]
          exact interpV_anti _ _ _ _ v1 v2 hphys1 hd (le_of_lt h12)
        · have hi1lt : i1 < i2 := lt_of_le_of_ne hi12 hii
          have hphys1 := hpmono (i1 - 1) i1 (by omega) hi1 (by omega)
          have hphys2 := hpmono (i2 - 1) i2 (by omega) hi2 (by omega)
          have hb1 := gpc_interp_case_bounds_V a.m_axisLabels v1 i1 hi1 hl1 hne1 hpos1 hphys1
          have hb2 := gpc_interp_case_bounds_V a.m_axisLabels v2 i2 hi2 hl2 hne2 hpos2 hphys2
          rw [hr1, hr2]
          exact le_trans hb2.2 (le_trans
            (truncQ_mono (hpmono i1 (i2 - 1) hi1 (by omega) (by omega))) hb1.1)

/-- The concrete horizontal axis for the C2 witness: two points with values
`0 < 10` at pixels `0` and `100`. -/
def axC2w : Axis :=
  { defaultAxis with
      m_axisLabels := [⟨0, "0", true, 0⟩, ⟨10, "10", true, 100⟩],
      m_rangeStart := 0, m_rangeEnd := 10 }

/-- Witness for C2: on the concrete two-point horizontal axis, the values `0`
and `10` map to pixels `0 ≤ 100`. -/
theorem C2_witness :
    if axC2w.m_type.isHorizontal then (0 : ℤ) ≤ 100 else (100 : ℤ) ≤ 0 := by
  refine C2_monotonicity axC2w rfl ?_ ?_ 0 10 0 100 (by norm_num) ?_ ?_
  · norm_num [axC2w, defaultAxis, List.pairwise_cons]
  · norm_num [axC2w, defaultAxis, List.pairwise_cons, AxisType.isHorizontal,
      AxisType.isVertical]
  · have h := gpc_at_point axC2w 0 (by norm_num [axC2w, defaultAxis])
      (by norm_num [axC2w, defaultAxis, List.pairwise_cons])
    simpa [axC2w, defaultAxis, truncQ] using h
  · have h := gpc_at_point axC2w 1 (by norm_num [axC2w, defaultAxis])
      (by norm_num [axC2w, defaultAxis, List.pairwise_cons])
    simpa [axC2w, defaultAxis, truncQ] using h

end GraphItems

end Wisteria